import Mathlib

/-!
Verification of the Weblate `import_project` management command and the
add-on configuration forms (files `weblate/trans/management/commands/import_project.py`
and `weblate/addons/forms.py`).

The Python code is shallowly embedded: strings are `String` / `List Char`,
the Django ORM, the filesystem, the VCS layer and the regular-expression
engine are explicit parameters or small executable models, and the command
is a pure function from an environment to a result together with a trace of
externally visible effects.
-/

set_option autoImplicit false
set_option linter.unusedVariables false

namespace Weblate

/-! ### Python string primitives

`replaceList` models Python `str.replace(pat, rep)` (all occurrences,
scanned left to right, non-overlapping, replacements never rescanned);
`replace1List` models `str.replace(pat, rep, 1)`; `containsList` models
`pat in s`; `countList` models `s.count(pat)`.  The source never calls
`replace` or `count` with an empty pattern, so the empty-pattern behaviour
of these models is irrelevant to the theorems below. -/

/-- Replacement worker: structurally recursive on the string, with a
counter of characters still to skip after a replacement (so that a match at
`c :: rest` emits the replacement and then skips the remaining
`pat.length - 1` matched characters). -/
def repAux (pat rep : List Char) : List Char → Nat → List Char
  | [], _ => []
  | _ :: rest, k + 1 => repAux pat rep rest k
  | c :: rest, 0 =>
    if pat.isPrefixOf (c :: rest) then rep ++ repAux pat rep rest (pat.length - 1)
    else c :: repAux pat rep rest 0

def replaceList (s pat rep : List Char) : List Char :=
  if pat = [] then s else repAux pat rep s 0

def replace1List (s pat rep : List Char) : List Char :=
  match s with
  | [] => []
  | c :: rest =>
    if pat ≠ [] ∧ pat.isPrefixOf (c :: rest) then
      rep ++ (c :: rest).drop pat.length
    else
      c :: replace1List rest pat rep

def containsList (s pat : List Char) : Bool :=
  match s with
  | [] => pat.isEmpty
  | _ :: rest => pat.isPrefixOf s || containsList rest pat

def countAux (pat : List Char) : List Char → Nat → Nat
  | [], _ => 0
  | _ :: rest, k + 1 => countAux pat rest k
  | c :: rest, 0 =>
    if pat.isPrefixOf (c :: rest) then 1 + countAux pat rest (pat.length - 1)
    else countAux pat rest 0

def countList (s pat : List Char) : Nat :=
  if pat = [] then s.length + 1 else countAux pat s 0

def pyReplace (s pat rep : String) : String :=
  ⟨replaceList s.data pat.data rep.data⟩

def pyReplace1 (s pat rep : String) : String :=
  ⟨replace1List s.data pat.data rep.data⟩

def pyContains (s pat : String) : Bool :=
  containsList s.data pat.data

def pyCount (s pat : String) : Nat :=
  countList s.data pat.data

/-! ### `fnmatch.translate`

Modelled from CPython 2.7's `fnmatch.translate` (a standard-library
collaborator of the source, which calls it on the file mask): `*` becomes
`.*`, `?` becomes `.`, a `[...]` character class is scanned to its closing
bracket (with the leading `!`/`]` skips), every other character is escaped
as in `re.escape` (alphanumerics kept, anything else prefixed with a
backslash, NUL rendered `\000`), and the suffix `\Z(?s)` is appended. -/

def escChar (c : Char) : List Char :=
  if c.isAlphanum then [c]
  else if c = Char.ofNat 0 then ['\\', '0', '0', '0']
  else ['\\', c]

def classSplitIdx (rest : List Char) : Option Nat :=
  let start1 : Nat := if rest.head? = some '!' then 1 else 0
  let start2 : Nat := if rest.get? start1 = some ']' then start1 + 1 else start1
  match (rest.drop start2).findIdx? (fun c => c = ']') with
  | none => none
  | some k => some (start2 + k)

def stuffEsc (stuff : List Char) : List Char :=
  stuff.flatMap (fun c => if c = '\\' then ['\\', '\\'] else [c])

def stuffAdjust (stuff : List Char) : List Char :=
  match stuffEsc stuff with
  | '!' :: r => '^' :: r
  | '^' :: r => '\\' :: '^' :: r
  | r => r

/-- Translation worker: structurally recursive on the pattern, with a
counter of characters still to skip (used to jump past a bracketed
character class). -/
def transAux : List Char → Nat → List Char
  | [], _ => []
  | _ :: rest, k + 1 => transAux rest k
  | c :: rest, 0 =>
    if c = '*' then '.' :: '*' :: transAux rest 0
    else if c = '?' then '.' :: transAux rest 0
    else if c = '[' then
      match classSplitIdx rest with
      | none => '\\' :: '[' :: transAux rest 0
      | some j => '[' :: (stuffAdjust (rest.take j) ++ ']' :: transAux rest (j + 1))
    else escChar c ++ transAux rest 0

def translateAux (s : List Char) : List Char :=
  transAux s 0

def suffixZ : List Char := ['\\', 'Z', '(', '?', 's', ')']

def fnmatchTranslate (s : List Char) : List Char :=
  translateAux s ++ suffixZ

/-! ### The mask-to-regex pipeline (`match_regexp`, import_project.py lines 190-202)

With no custom `--component-regexp`, the source computes
```
match = fnmatch.translate(self.filemask)
match = match.replace('.*.*', '(?P<name>[[WILDCARD]])')
match = match.replace('.*', '(?P<language>[[WILDCARD]])', 1)
match = match.replace('.*', '(?P=language)')
match = match.replace('[[WILDCARD]]', '.*')
```
-/

def nameWild : List Char := "(?P<name>[[WILDCARD]])".data

def langWild : List Char := "(?P<language>[[WILDCARD]])".data

def wildPH : List Char := "[[WILDCARD]]".data

def dotStar : List Char := ['.', '*']

def dotStar2 : List Char := ['.', '*', '.', '*']

def nameGrpS : List Char := "(?P<name>.*)".data

def langGrpS : List Char := "(?P<language>.*)".data

def langRefS : List Char := "(?P=language)".data

def matchRegexpChars (filemask : List Char) : List Char :=
  let m := fnmatchTranslate filemask
  let m := replaceList m dotStar2 nameWild
  let m := replace1List m dotStar langWild
  let m := replaceList m dotStar langRefS
  replaceList m wildPH dotStar

def match_regexp (filemask : String) : String :=
  ⟨matchRegexpChars filemask.data⟩

/-! ### Structured file masks

A file mask made of literal characters, single wildcards `*` and double
wildcards `**` is represented by a list of items; `renderGlob` produces the
mask string the operator would type.  `itemsOKb` restricts literals to the
characters on which `fnmatch.translate` takes its plain-escape branch (no
`*`, `?`, `[`, NUL), and `noAdjB` rules out two adjacent wildcard items
(whose rendering would merge into a longer `*` run and change how
`translate`'s output is carved up by the substitutions). -/

inductive GlobItem where
  | lit (c : Char)
  | star
  | dstar
deriving DecidableEq, Repr

def renderGlob : List GlobItem → List Char
  | [] => []
  | .lit c :: g => c :: renderGlob g
  | .star :: g => '*' :: renderGlob g
  | .dstar :: g => '*' :: '*' :: renderGlob g

def litOKb (it : GlobItem) : Bool :=
  match it with
  | .lit c => !(c = '*' || c = '?' || c = '[' || c = Char.ofNat 0)
  | _ => true

def itemsOKb (g : List GlobItem) : Bool :=
  g.all litOKb

def isWild (it : GlobItem) : Bool :=
  match it with
  | .lit _ => false
  | _ => true

def noAdjB : List GlobItem → Bool
  | a :: b :: g => !(isWild a && isWild b) && noAdjB (b :: g)
  | _ => true

/-! ### Regular-expression elements and matching semantics

The pipeline output is (for masks in the structured class) a concatenation
of escaped literals, `.` atoms, the two named groups and back-references to
the language group, followed by `\Z(?s)`.  `RElem` is that element
language, `rxRenderList` renders it back to concrete regex syntax, and `EM`
is the (non-deterministic) anchored matching relation: `EM n l es s n2 l2`
holds when `es` consumes exactly `s`, starting with captures `n`, `l` for
the `name`/`language` groups and ending with captures `n2`, `l2`.  A
back-reference consumes precisely the captured language and fails when the
group is unset, and each group can be captured only once, exactly as in
Python's `re`. -/

inductive RElem where
  | lit (c : Char)
  | anyChar
  | nameGroup
  | langGroup
  | langRef
deriving DecidableEq, Repr

def rxTok (e : RElem) : List Char :=
  match e with
  | .lit c => escChar c
  | .anyChar => ['.']
  | .nameGroup => nameGrpS
  | .langGroup => langGrpS
  | .langRef => langRefS

def rxRenderList (es : List RElem) : List Char :=
  (es.map rxTok).flatten

inductive EM : Option (List Char) → Option (List Char) → List RElem → List Char →
    Option (List Char) → Option (List Char) → Prop where
  | nil (n l : Option (List Char)) : EM n l [] [] n l
  | lit (c : Char) (n l : Option (List Char)) (es : List RElem) (s : List Char)
      (n2 l2 : Option (List Char)) :
      EM n l es s n2 l2 → EM n l (.lit c :: es) (c :: s) n2 l2
  | anyc (c : Char) (n l : Option (List Char)) (es : List RElem) (s : List Char)
      (n2 l2 : Option (List Char)) :
      EM n l es s n2 l2 → EM n l (.anyChar :: es) (c :: s) n2 l2
  | name (w : List Char) (l : Option (List Char)) (es : List RElem) (s : List Char)
      (n2 l2 : Option (List Char)) :
      EM (some w) l es s n2 l2 → EM none l (.nameGroup :: es) (w ++ s) n2 l2
  | lang (w : List Char) (n : Option (List Char)) (es : List RElem) (s : List Char)
      (n2 l2 : Option (List Char)) :
      EM n (some w) es s n2 l2 → EM n none (.langGroup :: es) (w ++ s) n2 l2
  | ref (w : List Char) (n : Option (List Char)) (es : List RElem) (s : List Char)
      (n2 l2 : Option (List Char)) :
      EM n (some w) es s n2 l2 → EM n (some w) (.langRef :: es) (w ++ s) n2 l2

/-- All splittings `(s.take k, s.drop k)` of a string. -/
def splits (s : List Char) : List (List Char × List Char) :=
  (List.range (s.length + 1)).map (fun k => (s.take k, s.drop k))

/-- Splittings ordered longest-first: the order in which a greedy `.*`
tries to consume input in Python's backtracking engine. -/
def splitsGreedy (s : List Char) : List (List Char × List Char) :=
  (splits s).reverse

/-- Deterministic anchored matching with Python's leftmost, greedy
backtracking strategy: the first capture assignment found when every `.*`
group tries longer consumptions first.  Models what
`match_regexp.match(path)` returns for regexes in the `RElem` language. -/
def emFirst (n l : Option (List Char)) (es : List RElem) (s : List Char) :
    Option (Option (List Char) × Option (List Char)) :=
  match es with
  | [] => if s = [] then some (n, l) else none
  | .lit c :: es2 =>
    match s with
    | [] => none
    | c2 :: s2 => if c2 = c then emFirst n l es2 s2 else none
  | .anyChar :: es2 =>
    match s with
    | [] => none
    | _ :: s2 => emFirst n l es2 s2
  | .nameGroup :: es2 =>
    match n with
    | some _ => none
    | none => (splitsGreedy s).findSome? (fun ws => emFirst (some ws.1) l es2 ws.2)
  | .langGroup :: es2 =>
    match l with
    | some _ => none
    | none => (splitsGreedy s).findSome? (fun ws => emFirst n (some ws.1) es2 ws.2)
  | .langRef :: es2 =>
    match l with
    | none => none
    | some w => if w.isPrefixOf s then emFirst n l es2 (s.drop w.length) else none

/-! ### Parsing the produced regex text back into elements

`parseRx` inverts `rxRenderList · ++ suffixZ` on the strings the pipeline
produces, connecting the concrete regex text built by `match_regexp` to the
matching semantics above. -/

def parseAux : List Char → Nat → Option (List RElem)
  | [], _ => some []
  | _ :: rest, k + 1 => parseAux rest k
  | c :: rest, 0 =>
    if nameGrpS.isPrefixOf (c :: rest) then
      (parseAux rest (nameGrpS.length - 1)).map (.nameGroup :: ·)
    else if langGrpS.isPrefixOf (c :: rest) then
      (parseAux rest (langGrpS.length - 1)).map (.langGroup :: ·)
    else if langRefS.isPrefixOf (c :: rest) then
      (parseAux rest (langRefS.length - 1)).map (.langRef :: ·)
    else if c = '\\' then
      match rest with
      | c2 :: r2 => (parseAux r2 0).map (.lit c2 :: ·)
      | [] => none
    else if c = '.' then (parseAux rest 0).map (.anyChar :: ·)
    else if c.isAlphanum then (parseAux rest 0).map (.lit c :: ·)
    else none

def parseBody (s : List Char) : Option (List RElem) :=
  parseAux s 0

def parseRx (s : List Char) : Option (List RElem) :=
  if s.length ≥ suffixZ.length ∧ s.drop (s.length - suffixZ.length) = suffixZ then
    parseBody (s.take (s.length - suffixZ.length))
  else none

/-! ### Structured description of the pipeline output

`elemsOf` gives, for a structured mask, the element list the pipeline is
expected to produce: the double wildcard becomes the `name` group, the
first (leftmost) single wildcard becomes the `language` group, every later
single wildcard becomes a back-reference, and literals stay escaped
literals.  `substGlob` builds the path obtained by substituting a name
token for `**` and a language token for each `*`. -/

def elemPost (it : GlobItem) : List RElem :=
  match it with
  | .lit c => [.lit c]
  | .star => [.langRef]
  | .dstar => [.nameGroup]

def elemsOf : List GlobItem → List RElem
  | [] => []
  | .star :: g => .langGroup :: g.flatMap elemPost
  | it :: g => elemPost it ++ elemsOf g

def substGlob (nm lg : List Char) : List GlobItem → List Char
  | [] => []
  | .lit c :: g => c :: substGlob nm lg g
  | .star :: g => lg ++ substGlob nm lg g
  | .dstar :: g => nm ++ substGlob nm lg g

/-! ### Stage-by-stage description of the pipeline on structured masks

For a structured mask, the pipeline's intermediate strings are
concatenations of per-item tokens: after `fnmatch.translate` each item
contributes `tok0`; after the `.*.*` → name-placeholder replacement each
contributes `tok1`; after the single `.*` → language-placeholder
replacement the leftmost star's token has changed (`toks2`); after the
remaining `.*` → back-reference replacement every later star has changed
(`toks3`); and after the placeholder → `.*` replacement the result renders
`elemsOf` (`toksF`). -/

def tok0 (it : GlobItem) : List Char :=
  match it with
  | .lit c => escChar c
  | .star => dotStar
  | .dstar => dotStar2

def tok1 (it : GlobItem) : List Char :=
  match it with
  | .lit c => escChar c
  | .star => dotStar
  | .dstar => nameWild

def tok3 (it : GlobItem) : List Char :=
  match it with
  | .lit c => escChar c
  | .star => langRefS
  | .dstar => nameWild

def tokF (it : GlobItem) : List Char :=
  match it with
  | .lit c => escChar c
  | .star => langRefS
  | .dstar => nameGrpS

def toks2 : List GlobItem → List Char
  | [] => []
  | .star :: g => langWild ++ (g.map tok1).flatten
  | it :: g => tok1 it ++ toks2 g

def toks3 : List GlobItem → List Char
  | [] => []
  | .star :: g => langWild ++ (g.map tok3).flatten
  | it :: g => tok1 it ++ toks3 g

def toksF : List GlobItem → List Char
  | [] => []
  | .star :: g => langGrpS ++ (g.map tokF).flatten
  | it :: g => tokF it ++ toksF g

def toksT (g : List GlobItem) : List Char := (g.map tok0).flatten

def toks1 (g : List GlobItem) : List Char := (g.map tok1).flatten

def toks3map (g : List GlobItem) : List Char := (g.map tok3).flatten

def toksFmap (g : List GlobItem) : List Char := (g.map tokF).flatten

/-! ### The import command

The command is embedded as a pure function over an explicit environment.
Collaborators that live outside the excerpt are environment fields: the
component/project/language store is lists, `re.compile` is an abstract
function returning the named groups of a compiled pattern (or `none` for a
`re.error`), the custom `--component-regexp` matcher is an abstract
function, and the filesystem/VCS layer is reduced to the list of paths the
glob of the file mask produces plus a trace of effects (`Eff`). -/

inductive Eff where
  | mkTmpDir
  | clone
  | rmTmpDir
  | renameTmpDir (slug : String)
  | warnSkip (path : String)
  | warnDuplicate (name : String)
  | warnMainExists (name : String)
  | createComponent (name slug repo : String)
deriving DecidableEq, Repr

structure Options where
  name_template : String := "%s"
  component_regexp : Option String := none
  base_file_template : String := ""
  file_format : String := "auto"
  language_regex : Option String := none
  duplicates : Bool := false
  license : Option String := none
  license_url : Option String := none
  vcs : String := "git"
  push_url : String := ""
  push_url_same : Bool := false
  push_on_commit : Bool := true
  main_component : Option String := none
  project : String := ""
  repo : String := ""
  branch : String := ""
  filemask : String := ""

structure Env where
  projects : List String
  components : List (String × String)
  langCodes : List String
  files : List String
  fileFormats : List String
  vcsKinds : List String
  reCompile : String → Option (List String)
  customMatch : String → String → Option (Option String × Option String)
  slugLen : Nat
  nameLen : Nat
  linked : String → Option Unit

/-- Python `template % mtch` for a single string argument, for the
conversions exercised here: `%s` is replaced by the argument and `%%` by a
percent sign (other conversion types and multiple `%s` would raise and are
not modelled). -/
def interpPercentS (t m : List Char) : List Char :=
  match t with
  | [] => []
  | '%' :: 's' :: rest => m ++ interpPercentS rest m
  | '%' :: '%' :: rest => '%' :: interpPercentS rest m
  | c :: rest => c :: interpPercentS rest m

/-- `format_string` (import_project.py lines 176-180). -/
def format_string (template mtch : String) : String :=
  if pyContains template "%s" then ⟨interpPercentS template.data mtch.data⟩ else template

def collapseDash : List Char → List Char
  | [] => []
  | [c] => if c = ' ' || c = '-' then ['-'] else [c]
  | c :: d :: rest =>
    if (c = ' ' || c = '-') && (d = ' ' || d = '-') then collapseDash (d :: rest)
    else (if c = ' ' || c = '-' then '-' else c) :: collapseDash (d :: rest)

/-- Modelled from the spec: `django.utils.text.slugify` (an external
collaborator), for ASCII input: drop characters that are not alphanumeric,
underscore, space or hyphen, lowercase, strip, and collapse runs of spaces
and hyphens into single hyphens. -/
def slugifyChars (s : List Char) : List Char :=
  let kept := (s.filter (fun c => c.isAlphanum || c = '_' || c = ' ' || c = '-')).map Char.toLower
  let stripped := ((kept.dropWhile (fun c => c = ' ')).reverse.dropWhile (fun c => c = ' ')).reverse
  collapseDash stripped

def slugify (s : String) : String :=
  ⟨slugifyChars s.data⟩

/-- Python `'{0:03d}'.format i` for `1 ≤ i ≤ 999`. -/
def fmt3 (i : Nat) : String :=
  if i < 10 then "00" ++ toString i
  else if i < 100 then "0" ++ toString i
  else toString i

/-- Modelled from the spec: `weblate.trans.util.is_repo_link` (repository
code outside the excerpt); per the glossary, a back-reference repository is
a `weblate://project/component` pointer rather than a direct URL. -/
def is_repo_link (repo : String) : Bool :=
  "weblate://".data.isPrefixOf repo.data

/-- Python `str.take`-style slicing `s[:n]` for the non-negative lengths
used here. -/
def pyTake (s : String) (n : Nat) : String :=
  ⟨s.data.take n⟩

/-- The file-mask shape accepted by `parse_options` (lines 318-324): the
mask must contain `**` somewhere and still contain a `*` after all `**`
occurrences are deleted.  (Note: this does NOT require exactly one `**`.) -/
def maskOk (filemask : String) : Bool :=
  pyContains filemask "**" && pyContains (pyReplace filemask "**" "") "*"

/-- The registry and mask checks of `parse_options` (lines 306-324), in
source order. -/
def registry_mask_checks (env : Env) (opts : Options) : Except String Unit :=
  if opts.file_format ∉ env.fileFormats then
    .error ("Invalid file format: " ++ opts.file_format)
  else if opts.vcs ∉ env.vcsKinds then
    .error ("Invalid vcs: " ++ opts.vcs)
  else if maskOk opts.filemask then .ok ()
  else .error "You need to specify double wildcard for subproject part of the match!"

/-- `parse_options` (import_project.py lines 271-324): the
`--component-regexp` compile and named-group checks, then the file-format
and VCS registry membership checks, then the file-mask shape check, in
source order.  It performs no repository access: it returns only a
result. -/
def parse_options (env : Env) (opts : Options) : Except String Unit :=
  match opts.component_regexp with
  | none => registry_mask_checks env opts
  | some rx =>
    match env.reCompile rx with
    | none => .error ("Failed to compile regular expression \"" ++ rx ++ "\"")
    | some gi =>
      if "name" ∈ gi ∧ "language" ∈ gi then registry_mask_checks env opts
      else .error "Component regular expression lacks named group \"name\" and/or \"language\""

/-- The matcher `get_name` consults: the compiled file-mask regex.  The
pipeline string is parsed into elements and matched with Python's greedy
deterministic strategy; group values come back as strings. -/
def maskMatcher (filemask : String) (path : String) :
    Option (Option String × Option String) :=
  match parseRx (matchRegexpChars filemask.data) with
  | none => none
  | some es =>
    (emFirst none none es path.data).map
      (fun p => (p.1.map (fun l => String.mk l), p.2.map (fun l => String.mk l)))

/-- `get_name` (lines 182-188): returns the two groups, or `(None, None)`
with a skip warning when the path does not match. -/
def get_name (matcher : String → Option (Option String × Option String)) (path : String) :
    (Option String × Option String) × List Eff :=
  match matcher path with
  | none => ((none, none), [Eff.warnSkip path])
  | some p => (p, [])

/-- Python truthiness of the `name` group value: `None` and the empty
string are falsy. -/
def truthy (v : Option String) : Bool :=
  match v with
  | none => false
  | some s => s ≠ ""

/-- The name/language collection loop of `get_matching_subprojects`
(lines 237-243): for each matched file, parse out `(name, lang)`; when the
name is truthy add both to the collected sets. -/
def collectNames (matcher : String → Option (Option String × Option String)) :
    List String → List String × List (Option String) × List Eff
  | [] => ([], [], [])
  | f :: fs =>
    let r := collectNames matcher fs
    match get_name matcher f with
    | ((some n, l), effs) =>
      if n ≠ "" then (n :: r.1, l :: r.2.1, effs ++ r.2.2)
      else (r.1, r.2.1, effs ++ r.2.2)
    | ((none, _), effs) => (r.1, r.2.1, effs ++ r.2.2)

/-- Python's lexicographic string order (comparison of code points). -/
def charListLe : List Char → List Char → Bool
  | [], _ => true
  | _ :: _, [] => false
  | c :: cs, d :: ds =>
    if c.toNat < d.toNat then true
    else if d.toNat < c.toNat then false
    else charListLe cs ds

def strLeB (a b : String) : Bool :=
  charListLe a.data b.data

def insertSorted (x : String) : List String → List String
  | [] => [x]
  | y :: ys => if strLeB x y then x :: y :: ys else y :: insertSorted x ys

def insertionSort : List String → List String
  | [] => []
  | x :: xs => insertSorted x (insertionSort xs)

/-- Python `sorted` on the distinct collected names (ascending, and the
collection is a set, so only the distinct names survive). -/
def sortedStrings (l : List String) : List String :=
  insertionSort l.dedup

/-- `get_matching_subprojects` (lines 227-254): glob the mask (the
environment supplies the matched relative paths), fail when nothing
matched, collect names and languages, fail when no collected language is a
known code, and return the sorted distinct names. -/
def get_matching_subprojects (env : Env)
    (matcher : String → Option (Option String × Option String)) :
    Except String (List String) × List Eff :=
  if env.files = [] then (.error "Your mask did not match any files!", [])
  else if ¬ (collectNames matcher env.files).2.1.any
      (fun l => env.langCodes.any (fun c => l = some c)) then
    (.error "None of matched languages exists, maybe you have mixed * and ** in the mask?",
     (collectNames matcher env.files).2.2)
  else
    (.ok (sortedStrings (collectNames matcher env.files).1),
     (collectNames matcher env.files).2.2)

/-- The `i`-th candidate `('<base> NNN', slugify of it)` probed by
`find_usable_slug`. -/
def slugCandidate (base : String) (i : Nat) : String × String :=
  let newname := base ++ " " ++ fmt3 i
  (newname, slugify newname)

/-- Is the `i`-th candidate's name or slug already used by an existing
component of the project? -/
def slugTaken (comps : List (String × String)) (base : String) (i : Nat) : Bool :=
  comps.any (fun c => c.1 = (slugCandidate base i).1 || c.2 = (slugCandidate base i).2)

/-- `find_usable_slug` (lines 256-269): starting from `i`, probe
`'<base> NNN'` for ascending `NNN`, returning the first candidate whose
name and slug are both unused; give up after 999 probes (Python
`range(1, 1000)`). -/
def find_usable_slug_go (comps : List (String × String)) (name base : String) :
    Nat → Nat → Except String (String × String)
  | 0, _ => .error ("Failed to find suitable name for " ++ name)
  | fuel + 1, i =>
    if slugTaken comps base i then find_usable_slug_go comps name base fuel (i + 1)
    else .ok (slugCandidate base i)

/-- The loop of `find_usable_slug` run from candidate `i` upwards: the
fuel `1000 - i` makes it probe exactly the candidates `i, …, 999`
(Python `range(1, 1000)` when entered at `i = 1`) and fail once they are
exhausted. -/
def find_usable_slug_from (comps : List (String × String)) (name base : String) (i : Nat) :
    Except String (String × String) :=
  find_usable_slug_go comps name base (1000 - i) i

def find_usable_slug (name : String) (slugLen : Nat) (comps : List (String × String)) :
    Except String (String × String) :=
  find_usable_slug_from comps name (pyTake name (slugLen - 4)) 1

/-- The component name computed for a match (name template applied, then
truncated to the name field length). -/
def matchName (env : Env) (opts : Options) (mtch : String) : String :=
  pyTake (format_string opts.name_template mtch) env.nameLen

/-- The slug computed for a match (slugified name, truncated to the slug
field length). -/
def matchSlug (env : Env) (opts : Options) (mtch : String) : String :=
  pyTake (slugify (matchName env opts mtch)) env.slugLen

/-- The base used by `find_usable_slug` for a match's name. -/
def matchBase (env : Env) (opts : Options) (mtch : String) : String :=
  pyTake (matchName env opts mtch) (env.slugLen - 4)

/-- One iteration of the component-creation loop in `handle`
(lines 369-399): compute name and slug, and when a component with that name
or slug already exists either skip with a warning (default) or rename via
`find_usable_slug`; otherwise (or after renaming) create the record. -/
def process_match (env : Env) (opts : Options) (sharedrepo : String)
    (comps : List (String × String)) (mtch : String) :
    Except String (List (String × String)) × List Eff :=
  if comps.any (fun c => c.1 = matchName env opts mtch || c.2 = matchSlug env opts mtch) then
    if ¬ opts.duplicates then (.ok comps, [Eff.warnDuplicate (matchName env opts mtch)])
    else
      match find_usable_slug (matchName env opts mtch) env.slugLen comps with
      | .error e => (.error e, [])
      | .ok (n2, s2) =>
        (.ok (comps ++ [(n2, s2)]), [Eff.createComponent n2 s2 sharedrepo])
  else (.ok (comps ++ [(matchName env opts mtch, matchSlug env opts mtch)]),
        [Eff.createComponent (matchName env opts mtch) (matchSlug env opts mtch) sharedrepo])

/-- The component-creation loop over the remaining matches. -/
def create_components (env : Env) (opts : Options) (sharedrepo : String) :
    List String → List (String × String) → Except String Unit × List Eff
  | [], _ => (.ok (), [])
  | m :: ms, comps =>
    match process_match env opts sharedrepo comps m with
    | (.error e, effs) => (.error e, effs)
    | (.ok comps2, effs) =>
      let r := create_components env opts sharedrepo ms comps2
      (r.1, effs ++ r.2)

/-- Selection of the main match (lines 425-433): the named
`--main-component` when given (removed from the matches), otherwise
`matches.pop()` — the LAST element of the sorted list. -/
def import_select (opts : Options) (ms : List String) : Except String (String × List String) :=
  match opts.main_component with
  | some m =>
    if m ∈ ms then .ok (m, ms.erase m)
    else .error "Specified --main-component was not found in matches!"
  | none =>
    match ms.getLast? with
    | some m => .ok (m, ms.dropLast)
    | none => .error "pop from empty list"

/-- `import_initial` (lines 418-468): create the temporary checkout
(`checkout_tmp`, lines 204-218: make the temporary directory and clone),
enumerate matches, select the main match, then either reuse an existing
same-slug component (warn, remove the temporary directory, share its
repository) or rename the temporary directory into place and create the
main component.  Returns the remaining matches, the shared-repository
back-reference and the updated store. -/
def import_initial (env : Env) (opts : Options)
    (matcher : String → Option (Option String × Option String))
    (projectSlug : String) :
    Except String (List String × String × List (String × String)) × List Eff :=
  match get_matching_subprojects env matcher with
  | (.error e, tr) => (.error e, [Eff.mkTmpDir, Eff.clone] ++ tr)
  | (.ok ms, tr) =>
    match import_select opts ms with
    | .error e => (.error e, [Eff.mkTmpDir, Eff.clone] ++ tr)
    | .ok (mtch, rest) =>
      if env.components.any (fun c => c.2 = matchSlug env opts mtch) then
        (.ok (rest, "weblate://" ++ projectSlug ++ "/" ++ matchSlug env opts mtch,
          env.components),
         [Eff.mkTmpDir, Eff.clone] ++ tr ++
           [Eff.warnMainExists (matchName env opts mtch), Eff.rmTmpDir])
      else
        (.ok (rest, "weblate://" ++ projectSlug ++ "/" ++ matchSlug env opts mtch,
          env.components ++ [(matchName env opts mtch, matchSlug env opts mtch)]),
         [Eff.mkTmpDir, Eff.clone] ++ tr ++
           [Eff.renameTmpDir (matchSlug env opts mtch),
            Eff.createComponent (matchName env opts mtch) (matchSlug env opts mtch) opts.repo])

/-- `handle` (lines 326-399): parse options, look up the project, resolve
the repository (back-reference reuse or initial import), then create the
remaining components.  Option-parsing or lookup failures return before any
effect is emitted. -/
def handle (env : Env) (opts : Options) : Except String Unit × List Eff :=
  match parse_options env opts with
  | .error e => (.error e, [])
  | .ok _ =>
    if opts.project ∉ env.projects then
      (.error ("Project \"" ++ opts.project ++ "\" not found, please create it first!"), [])
    else
      let matcher := match opts.component_regexp with
        | some rx => env.customMatch rx
        | none => maskMatcher opts.filemask
      if is_repo_link opts.repo then
        match env.linked opts.repo with
        | none =>
          (.error ("Component \"" ++ opts.repo ++ "\" not found, please create it first!"), [])
        | some _ =>
          match get_matching_subprojects env matcher with
          | (.error e, tr) => (.error e, tr)
          | (.ok ms, tr) =>
            let r := create_components env opts opts.repo ms env.components
            (r.1, tr ++ r.2)
      else
        match import_initial env opts matcher opts.project with
        | (.error e, tr) => (.error e, tr)
        | (.ok (ms, shared, comps), tr) =>
          let r := create_components env opts shared ms comps
          (r.1, tr ++ r.2)

/-! ### The discovery add-on form (addons/forms.py)

`DiscoveryForm.clean` (lines 166-177) over the three flag fields it
touches; `show_preview` is absent from the cleaned data before `clean` runs
and present afterwards, hence an `Option Bool`. -/

structure DiscoveryData where
  preview : Bool
  confirm : Bool
  show_preview : Option Bool
deriving DecidableEq, Repr

def discovery_clean (d : DiscoveryData) : Except String DiscoveryData :=
  let d1 : DiscoveryData := { d with show_preview := some d.preview }
  if d1.preview then
    if ¬ d1.confirm then .error "Please confirm matched components."
    else .ok { d1 with preview := false, confirm := false }
  else .ok { d1 with preview := true, confirm := false }

/-- Modelled from the spec: the add-on view driving the form (outside the
excerpt).  Per the two-phase flow, a submission whose cleaned data still
carries the preview marking is shown as a preview, and only a valid
non-preview submission is handed to `BaseAddonForm.save` (lines 38-40),
which delegates to the configuration acceptor.  Returns the cleaned data
passed to the acceptor, or `none` when the acceptor is not called. -/
def discovery_submit (d : DiscoveryData) : Option DiscoveryData :=
  match discovery_clean d with
  | .error _ => none
  | .ok d2 => if d2.preview then none else some d2

/-! ### Concrete instances used by witnesses and counterexamples -/

/-- The structured form of the mask `*/**/*.po`, whose language wildcard
repeats around the component wildcard. -/
def exItems : List GlobItem :=
  [.star, .lit '/', .dstar, .lit '/', .star, .lit '.', .lit 'p', .lit 'o']

/-- The structured form of the mask `a**cs*b`, whose literal text `cs`
can overlap a language token. -/
def c2Items : List GlobItem :=
  [.lit 'a', .dstar, .lit 'c', .lit 's', .star, .lit 'b']

def envEx : Env := {
  projects := ["proj"]
  components := []
  langCodes := ["cs"]
  files := ["a/cs.po", "b/cs.po"]
  fileFormats := ["auto", "po"]
  vcsKinds := ["git"]
  reCompile := fun _ => none
  customMatch := fun _ _ => none
  slugLen := 100
  nameLen := 100
  linked := fun _ => none }

def optsEx : Options := {
  repo := "https://example.com/repo.git"
  branch := "master"
  project := "proj"
  filemask := "**/*.po" }

def envNoFiles : Env := { envEx with files := [] }

def envC9 : Env := { envEx with files := ["a/cs.po", "junk.txt"] }

def compsEx : List (String × String) := [("Comp", "comp"), ("Comp 001", "comp-001")]

/-! ## Theorems -/

/-! ### Generic facts about the Python string-replace models -/

theorem prefix_false_head (pat : List Char) (c0 a : Char) (s : List Char)
    (hp : pat.head? = some c0) (h : a ≠ c0) : pat.isPrefixOf (a :: s) = false := by
  cases pat with
  | nil => simp at hp
  | cons p0 ps =>
    have hpc : p0 = c0 := by simpa using hp
    have hpa : p0 ≠ a := by rw [hpc]; exact Ne.symm h
    rw [List.isPrefixOf_cons₂]
    simp [hpa]

theorem prefix_false_second (c0 c1 : Char) (p s : List Char)
    (h : s.head? ≠ some c1) : ((c0 :: c1 :: p).isPrefixOf (c0 :: s)) = false := by
  cases s with
  | nil => simp [List.isPrefixOf_cons₂]
  | cons b bs =>
    have hb : c1 ≠ b := by
      intro e
      exact h (by simp [e])
    rw [List.isPrefixOf_cons₂, List.isPrefixOf_cons₂]
    simp [hb]

theorem isPrefixOf_self_app (p s : List Char) : p.isPrefixOf (p ++ s) = true := by
  induction p with
  | nil => simp
  | cons a q ih =>
    rw [List.cons_append, List.isPrefixOf_cons₂]
    simp [ih]

theorem pat_ne_nil_of_prefix_false (s pat : List Char)
    (h : pat.isPrefixOf s = false) : pat ≠ [] := by
  intro e
  subst e
  simp at h

theorem repAux_skip_app (pat rep d s : List Char) :
    repAux pat rep (d ++ s) d.length = repAux pat rep s 0 := by
  induction d with
  | nil => rfl
  | cons e d2 ih =>
    show repAux pat rep (e :: (d2 ++ s)) (d2.length + 1) = repAux pat rep s 0
    rw [repAux, ih]

theorem replaceList_cons_neg (a : Char) (s pat rep : List Char)
    (h : pat.isPrefixOf (a :: s) = false) :
    replaceList (a :: s) pat rep = a :: replaceList s pat rep := by
  have hne := pat_ne_nil_of_prefix_false _ _ h
  unfold replaceList
  rw [if_neg hne, if_neg hne]
  rw [repAux, if_neg (by rw [h]; simp)]

theorem replaceList_skip (t s pat rep : List Char) (c0 : Char)
    (hp : pat.head? = some c0) (h : c0 ∉ t) :
    replaceList (t ++ s) pat rep = t ++ replaceList s pat rep := by
  induction t with
  | nil => simp
  | cons a ts ih =>
    have ha : a ≠ c0 := fun e => h (by simp [e])
    rw [List.cons_append,
      replaceList_cons_neg a (ts ++ s) pat rep (prefix_false_head pat c0 a _ hp ha)]
    rw [ih (fun hm => h (List.mem_cons_of_mem a hm))]
    rfl

theorem replaceList_at (s pat rep : List Char) (hne : pat ≠ []) :
    replaceList (pat ++ s) pat rep = rep ++ replaceList s pat rep := by
  unfold replaceList
  rw [if_neg hne, if_neg hne]
  cases pat with
  | nil => exact absurd rfl hne
  | cons c ps =>
    rw [List.cons_append, repAux]
    rw [if_pos (by rw [← List.cons_append]; exact isPrefixOf_self_app (c :: ps) s)]
    have hlen : (c :: ps).length - 1 = ps.length := by simp
    rw [hlen, repAux_skip_app]

theorem replace1List_cons_neg (a : Char) (s pat rep : List Char)
    (h : pat.isPrefixOf (a :: s) = false) :
    replace1List (a :: s) pat rep = a :: replace1List s pat rep := by
  rw [replace1List]
  rw [if_neg]
  intro hc
  rw [h] at hc
  exact absurd hc.2 (by simp)

theorem replace1List_skip (t s pat rep : List Char) (c0 : Char)
    (hp : pat.head? = some c0) (h : c0 ∉ t) :
    replace1List (t ++ s) pat rep = t ++ replace1List s pat rep := by
  induction t with
  | nil => simp
  | cons a ts ih =>
    have ha : a ≠ c0 := fun e => h (by simp [e])
    rw [List.cons_append,
      replace1List_cons_neg a (ts ++ s) pat rep (prefix_false_head pat c0 a _ hp ha)]
    rw [ih (fun hm => h (List.mem_cons_of_mem a hm))]
    rfl

theorem replace1List_at (s pat rep : List Char) (hne : pat ≠ []) :
    replace1List (pat ++ s) pat rep = rep ++ s := by
  cases pat with
  | nil => exact absurd rfl hne
  | cons c ps =>
    rw [List.cons_append, replace1List]
    rw [if_pos ⟨hne, by rw [← List.cons_append]; exact isPrefixOf_self_app (c :: ps) s⟩]
    congr 1
    rw [← List.cons_append, List.drop_left]

/-! ### Shapes of the per-item tokens -/

theorem alnum_ne (c d : Char) (hc : c.isAlphanum = true) (hd : d.isAlphanum = false) :
    c ≠ d := by
  intro e
  rw [e, hd] at hc
  cases hc

theorem escChar_cases (c : Char) :
    (c.isAlphanum = true ∧ escChar c = [c]) ∨ (∃ t, escChar c = '\\' :: t) := by
  unfold escChar
  by_cases h : c.isAlphanum
  · exact Or.inl ⟨h, by rw [if_pos h]⟩
  · refine Or.inr ?_
    rw [if_neg h]
    by_cases h0 : c = Char.ofNat 0
    · rw [if_pos h0]; exact ⟨_, rfl⟩
    · rw [if_neg h0]; exact ⟨_, rfl⟩

theorem escChar_app_head_ne (c d : Char) (s : List Char)
    (hd : d.isAlphanum = false) (hdb : d ≠ '\\') :
    (escChar c ++ s).head? ≠ some d := by
  rcases escChar_cases c with ⟨hc, he⟩ | ⟨t, he⟩ <;> rw [he]
  · simpa using alnum_ne c d hc hd
  · simpa using Ne.symm hdb

theorem dot_not_mem_escChar (c : Char) (hc : c ≠ '.') : ('.' : Char) ∉ escChar c := by
  unfold escChar
  by_cases h : c.isAlphanum
  · rw [if_pos h]
    simp
    exact fun e => hc e.symm
  · rw [if_neg h]
    by_cases h0 : c = Char.ofNat 0
    · rw [if_pos h0]; decide
    · rw [if_neg h0]
      simp
      exact fun e => hc e.symm

theorem bracket_not_mem_escChar (c : Char) (hc : c ≠ '[') : ('[' : Char) ∉ escChar c := by
  unfold escChar
  by_cases h : c.isAlphanum
  · rw [if_pos h]
    simp
    exact fun e => hc e.symm
  · rw [if_neg h]
    by_cases h0 : c = Char.ofNat 0
    · rw [if_pos h0]; decide
    · rw [if_neg h0]
      simp
      exact fun e => hc e.symm

/-- Replacing a pattern of the form `.*...` walks over an escaped literal
unchanged, provided the following text does not begin with `*`. -/
theorem esc_skip (c : Char) (s pat p rep : List Char) (hpat : pat = '.' :: '*' :: p)
    (hs : s.head? ≠ some '*') :
    replaceList (escChar c ++ s) pat rep =
      escChar c ++ replaceList s pat rep := by
  subst hpat
  by_cases hc : c = '.'
  · subst hc
    have he : escChar '.' = ['\\', '.'] := by decide
    rw [he]
    simp only [List.cons_append, List.nil_append]
    rw [replaceList_cons_neg _ _ _ _
      (prefix_false_head ('.' :: '*' :: p) '.' '\\' _ rfl (by decide))]
    rw [replaceList_cons_neg _ _ _ _ (prefix_false_second '.' '*' p s hs)]
  · exact replaceList_skip _ _ _ _ '.' rfl (dot_not_mem_escChar c hc)

theorem esc_skip1 (c : Char) (s pat p rep : List Char) (hpat : pat = '.' :: '*' :: p)
    (hs : s.head? ≠ some '*') :
    replace1List (escChar c ++ s) pat rep =
      escChar c ++ replace1List s pat rep := by
  subst hpat
  by_cases hc : c = '.'
  · subst hc
    have he : escChar '.' = ['\\', '.'] := by decide
    rw [he]
    simp only [List.cons_append, List.nil_append]
    rw [replace1List_cons_neg _ _ _ _
      (prefix_false_head ('.' :: '*' :: p) '.' '\\' _ rfl (by decide))]
    rw [replace1List_cons_neg _ _ _ _ (prefix_false_second '.' '*' p s hs)]
  · exact replace1List_skip _ _ _ _ '.' rfl (dot_not_mem_escChar c hc)

/-! ### First characters of the intermediate token streams -/

theorem head_ne_star_T0 (g : List GlobItem) : (toksT g ++ suffixZ).head? ≠ some '*' := by
  cases g with
  | nil => simp [toksT, suffixZ]
  | cons it g2 =>
    cases it with
    | lit c =>
      simp only [toksT, List.map_cons, List.flatten_cons, List.append_assoc]
      exact escChar_app_head_ne c '*' _ (by decide) (by decide)
    | star => simp [toksT, tok0, dotStar]
    | dstar => simp [toksT, tok0, dotStar2]

theorem head_ne_star_T1 (g : List GlobItem) : (toks1 g ++ suffixZ).head? ≠ some '*' := by
  cases g with
  | nil => simp [toks1, suffixZ]
  | cons it g2 =>
    cases it with
    | lit c =>
      simp only [toks1, List.map_cons, List.flatten_cons, List.append_assoc]
      exact escChar_app_head_ne c '*' _ (by decide) (by decide)
    | star => simp [toks1, tok1, dotStar]
    | dstar => simp [toks1, tok1, nameWild]

theorem head_ne_star_toks2 (g : List GlobItem) : (toks2 g ++ suffixZ).head? ≠ some '*' := by
  cases g with
  | nil => simp [toks2, suffixZ]
  | cons it g2 =>
    cases it with
    | lit c =>
      simp only [toks2, List.append_assoc]
      exact escChar_app_head_ne c '*' _ (by decide) (by decide)
    | star => simp [toks2, langWild]
    | dstar => simp [toks2, tok1, nameWild]

theorem head_ne_star_T3 (g : List GlobItem) : (toks3map g ++ suffixZ).head? ≠ some '*' := by
  cases g with
  | nil => simp [toks3map, suffixZ]
  | cons it g2 =>
    cases it with
    | lit c =>
      simp only [toks3map, List.map_cons, List.flatten_cons, List.append_assoc]
      exact escChar_app_head_ne c '*' _ (by decide) (by decide)
    | star => simp [toks3map, tok3, langRefS]
    | dstar => simp [toks3map, tok3, nameWild]

/-- After a non-wildcard item (or at the end), the translated stream does
not begin with `.*`. -/
theorem dotstar_not_prefix_T0 (g : List GlobItem)
    (h : ∀ it, g.head? = some it → isWild it = false) :
    dotStar.isPrefixOf (toksT g ++ suffixZ) = false := by
  cases g with
  | nil => simp [toksT, suffixZ]; decide
  | cons it g2 =>
    cases it with
    | lit c =>
      simp only [toksT, List.map_cons, List.flatten_cons, List.append_assoc, tok0]
      rcases escChar_cases c with ⟨hc, he⟩ | ⟨t, he⟩ <;> rw [he]
      · rw [List.cons_append]
        exact prefix_false_head dotStar '.' c _ rfl (alnum_ne c '.' hc (by decide))
      · rw [List.cons_append]
        exact prefix_false_head dotStar '.' '\\' _ rfl (by decide)
    | star => exact absurd (h _ rfl) (by simp [isWild])
    | dstar => exact absurd (h _ rfl) (by simp [isWild])

/-! ### Side-condition bookkeeping -/

theorem itemsOKb_cons (it : GlobItem) (g : List GlobItem) (h : itemsOKb (it :: g) = true) :
    litOKb it = true ∧ itemsOKb g = true := by
  simpa [itemsOKb] using h

theorem litOK_facts (c : Char) (h : litOKb (.lit c) = true) :
    c ≠ '*' ∧ c ≠ '?' ∧ c ≠ '[' ∧ c ≠ Char.ofNat 0 := by
  simp [litOKb] at h
  exact ⟨h.1.1.1, h.1.1.2, h.1.2, h.2⟩

theorem noAdjB_tail (a : GlobItem) (g : List GlobItem) (h : noAdjB (a :: g) = true) :
    noAdjB g = true := by
  cases g with
  | nil => rfl
  | cons b g2 =>
    rw [noAdjB, Bool.and_eq_true] at h
    exact h.2

theorem noAdj_wild_head (a : GlobItem) (g : List GlobItem)
    (ha : isWild a = true) (h : noAdjB (a :: g) = true) :
    ∀ it, g.head? = some it → isWild it = false := by
  intro it hit
  cases g with
  | nil => cases hit
  | cons b g2 =>
    have hb : b = it := by simpa using hit
    subst hb
    rw [noAdjB, Bool.and_eq_true] at h
    have := h.1
    rw [ha] at this
    simpa using this

/-! ### The pipeline, stage by stage, on structured masks -/

theorem translate_items (g : List GlobItem) (hok : itemsOKb g = true) :
    translateAux (renderGlob g) = toksT g := by
  induction g with
  | nil => rfl
  | cons it g2 ih =>
    obtain ⟨hit, hg2⟩ := itemsOKb_cons it g2 hok
    cases it with
    | lit c =>
      obtain ⟨h1, h2, h3, h4⟩ := litOK_facts c hit
      show transAux (c :: renderGlob g2) 0 = escChar c ++ toksT g2
      rw [transAux]
      rw [if_neg h1, if_neg h2, if_neg h3]
      rw [show transAux (renderGlob g2) 0 = translateAux (renderGlob g2) from rfl, ih hg2]
    | star =>
      show transAux ('*' :: renderGlob g2) 0 = dotStar ++ toksT g2
      rw [transAux, if_pos rfl]
      rw [show transAux (renderGlob g2) 0 = translateAux (renderGlob g2) from rfl, ih hg2]
      rfl
    | dstar =>
      show transAux ('*' :: '*' :: renderGlob g2) 0 = dotStar2 ++ toksT g2
      rw [transAux, if_pos rfl, transAux, if_pos rfl]
      rw [show transAux (renderGlob g2) 0 = translateAux (renderGlob g2) from rfl, ih hg2]
      rfl

theorem step1_items (g : List GlobItem) (hok : itemsOKb g = true) (hadj : noAdjB g = true) :
    replaceList (toksT g ++ suffixZ) dotStar2 nameWild = toks1 g ++ suffixZ := by
  induction g with
  | nil =>
    show replaceList suffixZ dotStar2 nameWild = suffixZ
    decide
  | cons it g2 ih =>
    obtain ⟨hit, hg2⟩ := itemsOKb_cons it g2 hok
    have hadj2 := noAdjB_tail it g2 hadj
    cases it with
    | lit c =>
      have hshape : toksT (GlobItem.lit c :: g2) ++ suffixZ =
          escChar c ++ (toksT g2 ++ suffixZ) := by
        simp [toksT, tok0, List.append_assoc]
      rw [hshape]
      rw [esc_skip c (toksT g2 ++ suffixZ) dotStar2 ['.', '*'] nameWild (by decide)
        (head_ne_star_T0 g2)]
      rw [ih hg2 hadj2]
      simp [toks1, tok1, List.append_assoc]
    | star =>
      have hshape : toksT (GlobItem.star :: g2) ++ suffixZ =
          '.' :: '*' :: (toksT g2 ++ suffixZ) := by
        simp [toksT, tok0, dotStar, List.append_assoc]
      rw [hshape]
      have h2 : dotStar.isPrefixOf (toksT g2 ++ suffixZ) = false :=
        dotstar_not_prefix_T0 g2 (noAdj_wild_head GlobItem.star g2 rfl hadj)
      have hnp : dotStar2.isPrefixOf ('.' :: '*' :: (toksT g2 ++ suffixZ)) = false := by
        show (('.' == '.') && (('*' == '*') &&
          dotStar.isPrefixOf (toksT g2 ++ suffixZ))) = false
        rw [h2]
        simp
      rw [replaceList_cons_neg _ _ _ _ hnp]
      rw [replaceList_cons_neg _ _ _ _
        (prefix_false_head dotStar2 '.' '*' _ rfl (by decide))]
      rw [ih hg2 hadj2]
      simp [toks1, tok1, dotStar, List.append_assoc]
    | dstar =>
      have hshape : toksT (GlobItem.dstar :: g2) ++ suffixZ =
          dotStar2 ++ (toksT g2 ++ suffixZ) := by
        simp [toksT, tok0, List.append_assoc]
      rw [hshape, replaceList_at _ _ _ (by decide)]
      rw [ih hg2 hadj2]
      simp [toks1, tok1, List.append_assoc]

theorem step2_items (g : List GlobItem) (hok : itemsOKb g = true) :
    replace1List (toks1 g ++ suffixZ) dotStar langWild = toks2 g ++ suffixZ := by
  induction g with
  | nil =>
    show replace1List suffixZ dotStar langWild = suffixZ
    decide
  | cons it g2 ih =>
    obtain ⟨hit, hg2⟩ := itemsOKb_cons it g2 hok
    cases it with
    | lit c =>
      have hshape : toks1 (GlobItem.lit c :: g2) ++ suffixZ =
          escChar c ++ (toks1 g2 ++ suffixZ) := by
        simp [toks1, tok1, List.append_assoc]
      rw [hshape]
      rw [esc_skip1 c (toks1 g2 ++ suffixZ) dotStar [] langWild (by decide)
        (head_ne_star_T1 g2)]
      rw [ih hg2]
      simp [toks2, tok1, List.append_assoc]
    | star =>
      have hshape : toks1 (GlobItem.star :: g2) ++ suffixZ =
          dotStar ++ (toks1 g2 ++ suffixZ) := by
        simp [toks1, tok1, List.append_assoc]
      rw [hshape, replace1List_at _ _ _ (by decide)]
      simp [toks2, toks1, List.append_assoc]
    | dstar =>
      have hshape : toks1 (GlobItem.dstar :: g2) ++ suffixZ =
          nameWild ++ (toks1 g2 ++ suffixZ) := by
        simp [toks1, tok1, List.append_assoc]
      rw [hshape]
      rw [replace1List_skip nameWild _ dotStar _ '.' (by decide) (by decide)]
      rw [ih hg2]
      simp [toks2, tok1, List.append_assoc]

theorem step3_post (g : List GlobItem) (hok : itemsOKb g = true) :
    replaceList (toks1 g ++ suffixZ) dotStar langRefS = toks3map g ++ suffixZ := by
  induction g with
  | nil =>
    show replaceList suffixZ dotStar langRefS = suffixZ
    decide
  | cons it g2 ih =>
    obtain ⟨hit, hg2⟩ := itemsOKb_cons it g2 hok
    cases it with
    | lit c =>
      have hshape : toks1 (GlobItem.lit c :: g2) ++ suffixZ =
          escChar c ++ (toks1 g2 ++ suffixZ) := by
        simp [toks1, tok1, List.append_assoc]
      rw [hshape]
      rw [esc_skip c (toks1 g2 ++ suffixZ) dotStar [] langRefS (by decide)
        (head_ne_star_T1 g2)]
      rw [ih hg2]
      simp [toks3map, tok3, List.append_assoc]
    | star =>
      have hshape : toks1 (GlobItem.star :: g2) ++ suffixZ =
          dotStar ++ (toks1 g2 ++ suffixZ) := by
        simp [toks1, tok1, List.append_assoc]
      rw [hshape, replaceList_at _ _ _ (by decide)]
      rw [ih hg2]
      simp [toks3map, tok3, List.append_assoc]
    | dstar =>
      have hshape : toks1 (GlobItem.dstar :: g2) ++ suffixZ =
          nameWild ++ (toks1 g2 ++ suffixZ) := by
        simp [toks1, tok1, List.append_assoc]
      rw [hshape]
      rw [replaceList_skip nameWild _ dotStar _ '.' (by decide) (by decide)]
      rw [ih hg2]
      simp [toks3map, tok3, List.append_assoc]

theorem step3_items (g : List GlobItem) (hok : itemsOKb g = true) :
    replaceList (toks2 g ++ suffixZ) dotStar langRefS = toks3 g ++ suffixZ := by
  induction g with
  | nil =>
    show replaceList suffixZ dotStar langRefS = suffixZ
    decide
  | cons it g2 ih =>
    obtain ⟨hit, hg2⟩ := itemsOKb_cons it g2 hok
    cases it with
    | lit c =>
      have hshape : toks2 (GlobItem.lit c :: g2) ++ suffixZ =
          escChar c ++ (toks2 g2 ++ suffixZ) := by
        simp [toks2, tok1, List.append_assoc]
      rw [hshape]
      rw [esc_skip c (toks2 g2 ++ suffixZ) dotStar [] langRefS (by decide)
        (head_ne_star_toks2 g2)]
      rw [ih hg2]
      simp [toks3, tok1, List.append_assoc]
    | star =>
      have hshape : toks2 (GlobItem.star :: g2) ++ suffixZ =
          langWild ++ (toks1 g2 ++ suffixZ) := by
        simp [toks2, toks1, List.append_assoc]
      rw [hshape]
      rw [replaceList_skip langWild _ dotStar _ '.' (by decide) (by decide)]
      rw [step3_post g2 hg2]
      simp [toks3, toks3map, List.append_assoc]
    | dstar =>
      have hshape : toks2 (GlobItem.dstar :: g2) ++ suffixZ =
          nameWild ++ (toks2 g2 ++ suffixZ) := by
        simp [toks2, tok1, List.append_assoc]
      rw [hshape]
      rw [replaceList_skip nameWild _ dotStar _ '.' (by decide) (by decide)]
      rw [ih hg2]
      simp [toks3, tok1, List.append_assoc]

theorem wild_name (S : List Char) :
    replaceList (nameWild ++ S) wildPH dotStar = nameGrpS ++ replaceList S wildPH dotStar := by
  have h1 : nameWild = "(?P<name>".data ++ (wildPH ++ [')']) := by decide
  have h2 : nameGrpS = "(?P<name>".data ++ (dotStar ++ [')']) := by decide
  rw [h1, h2]
  rw [List.append_assoc]
  rw [replaceList_skip _ _ _ _ '[' (by decide) (by decide)]
  rw [List.append_assoc]
  rw [replaceList_at _ _ _ (by decide)]
  rw [show ([')'] ++ S) = ')' :: S from rfl]
  rw [replaceList_cons_neg _ _ _ _ (prefix_false_head wildPH '[' ')' _ (by decide) (by decide))]
  simp [List.append_assoc]

theorem wild_lang (S : List Char) :
    replaceList (langWild ++ S) wildPH dotStar = langGrpS ++ replaceList S wildPH dotStar := by
  have h1 : langWild = "(?P<language>".data ++ (wildPH ++ [')']) := by decide
  have h2 : langGrpS = "(?P<language>".data ++ (dotStar ++ [')']) := by decide
  rw [h1, h2]
  rw [List.append_assoc]
  rw [replaceList_skip _ _ _ _ '[' (by decide) (by decide)]
  rw [List.append_assoc]
  rw [replaceList_at _ _ _ (by decide)]
  rw [show ([')'] ++ S) = ')' :: S from rfl]
  rw [replaceList_cons_neg _ _ _ _ (prefix_false_head wildPH '[' ')' _ (by decide) (by decide))]
  simp [List.append_assoc]

theorem step4_post (g : List GlobItem) (hok : itemsOKb g = true) :
    replaceList (toks3map g ++ suffixZ) wildPH dotStar = toksFmap g ++ suffixZ := by
  induction g with
  | nil =>
    show replaceList suffixZ wildPH dotStar = suffixZ
    decide
  | cons it g2 ih =>
    obtain ⟨hit, hg2⟩ := itemsOKb_cons it g2 hok
    cases it with
    | lit c =>
      obtain ⟨h1, h2, h3, h4⟩ := litOK_facts c hit
      have hshape : toks3map (GlobItem.lit c :: g2) ++ suffixZ =
          escChar c ++ (toks3map g2 ++ suffixZ) := by
        simp [toks3map, tok3, List.append_assoc]
      rw [hshape]
      rw [replaceList_skip _ _ _ _ '[' (by decide) (bracket_not_mem_escChar c h3)]
      rw [ih hg2]
      simp [toksFmap, tokF, List.append_assoc]
    | star =>
      have hshape : toks3map (GlobItem.star :: g2) ++ suffixZ =
          langRefS ++ (toks3map g2 ++ suffixZ) := by
        simp [toks3map, tok3, List.append_assoc]
      rw [hshape]
      rw [replaceList_skip langRefS _ wildPH _ '[' (by decide) (by decide)]
      rw [ih hg2]
      simp [toksFmap, tokF, List.append_assoc]
    | dstar =>
      have hshape : toks3map (GlobItem.dstar :: g2) ++ suffixZ =
          nameWild ++ (toks3map g2 ++ suffixZ) := by
        simp [toks3map, tok3, List.append_assoc]
      rw [hshape, wild_name]
      rw [ih hg2]
      simp [toksFmap, tokF, List.append_assoc]

theorem step4_items (g : List GlobItem) (hok : itemsOKb g = true) :
    replaceList (toks3 g ++ suffixZ) wildPH dotStar = toksF g ++ suffixZ := by
  induction g with
  | nil =>
    show replaceList suffixZ wildPH dotStar = suffixZ
    decide
  | cons it g2 ih =>
    obtain ⟨hit, hg2⟩ := itemsOKb_cons it g2 hok
    cases it with
    | lit c =>
      obtain ⟨h1, h2, h3, h4⟩ := litOK_facts c hit
      have hshape : toks3 (GlobItem.lit c :: g2) ++ suffixZ =
          escChar c ++ (toks3 g2 ++ suffixZ) := by
        simp [toks3, tok1, List.append_assoc]
      rw [hshape]
      rw [replaceList_skip _ _ _ _ '[' (by decide) (bracket_not_mem_escChar c h3)]
      rw [ih hg2]
      simp [toksF, tokF, List.append_assoc]
    | star =>
      have hshape : toks3 (GlobItem.star :: g2) ++ suffixZ =
          langWild ++ (toks3map g2 ++ suffixZ) := by
        simp [toks3, toks3map, List.append_assoc]
      rw [hshape, wild_lang]
      rw [step4_post g2 hg2]
      simp [toksF, toksFmap, List.append_assoc]
    | dstar =>
      have hshape : toks3 (GlobItem.dstar :: g2) ++ suffixZ =
          nameWild ++ (toks3 g2 ++ suffixZ) := by
        simp [toks3, tok1, List.append_assoc]
      rw [hshape, wild_name]
      rw [ih hg2]
      simp [toksF, tokF, List.append_assoc]

/-- The whole pipeline on a structured mask: `fnmatch.translate` then the
four substitutions produce exactly the rendering of `elemsOf`. -/
theorem mask_pipeline (g : List GlobItem) (hok : itemsOKb g = true) (hadj : noAdjB g = true) :
    matchRegexpChars (renderGlob g) = toksF g ++ suffixZ := by
  show replaceList (replaceList (replace1List (replaceList
      (translateAux (renderGlob g) ++ suffixZ) dotStar2 nameWild)
      dotStar langWild) dotStar langRefS) wildPH dotStar = toksF g ++ suffixZ
  rw [translate_items g hok]
  rw [step1_items g hok hadj]
  rw [step2_items g hok]
  rw [step3_items g hok]
  rw [step4_items g hok]

theorem toksFmap_render (g : List GlobItem) :
    toksFmap g = rxRenderList (g.flatMap elemPost) := by
  induction g with
  | nil => rfl
  | cons it g2 ih =>
    cases it with
    | lit c =>
      show escChar c ++ toksFmap g2 = escChar c ++ rxRenderList (g2.flatMap elemPost)
      rw [ih]
    | star =>
      show langRefS ++ toksFmap g2 = langRefS ++ rxRenderList (g2.flatMap elemPost)
      rw [ih]
    | dstar =>
      show nameGrpS ++ toksFmap g2 = nameGrpS ++ rxRenderList (g2.flatMap elemPost)
      rw [ih]

theorem toksF_render (g : List GlobItem) :
    toksF g = rxRenderList (elemsOf g) := by
  induction g with
  | nil => rfl
  | cons it g2 ih =>
    cases it with
    | lit c =>
      show escChar c ++ toksF g2 = escChar c ++ rxRenderList (elemsOf g2)
      rw [ih]
    | star =>
      show langGrpS ++ toksFmap g2 = langGrpS ++ rxRenderList (g2.flatMap elemPost)
      rw [toksFmap_render g2]
    | dstar =>
      show nameGrpS ++ toksF g2 = nameGrpS ++ rxRenderList (elemsOf g2)
      rw [ih]

/-- The pipeline result, phrased through the element language. -/
theorem mask_pipeline_render (g : List GlobItem)
    (hok : itemsOKb g = true) (hadj : noAdjB g = true) :
    matchRegexpChars (renderGlob g) = rxRenderList (elemsOf g) ++ suffixZ := by
  rw [mask_pipeline g hok hadj, toksF_render g]

/-! ### Option parsing facts -/

theorem registry_mask_error (env : Env) (opts : Options) (h : maskOk opts.filemask = false) :
    ∃ e, registry_mask_checks env opts = .error e := by
  unfold registry_mask_checks
  by_cases h1 : opts.file_format ∉ env.fileFormats
  · rw [if_pos h1]; exact ⟨_, rfl⟩
  · rw [if_neg h1]
    by_cases h2 : opts.vcs ∉ env.vcsKinds
    · rw [if_pos h2]; exact ⟨_, rfl⟩
    · rw [if_neg h2]
      rw [if_neg (by rw [h]; simp)]
      exact ⟨_, rfl⟩

theorem parse_options_none (env : Env) (opts : Options)
    (hcr : opts.component_regexp = none) :
    parse_options env opts = registry_mask_checks env opts := by
  unfold parse_options
  rw [hcr]

theorem parse_options_some (env : Env) (opts : Options) (rx : String)
    (hcr : opts.component_regexp = some rx) :
    parse_options env opts =
      (match env.reCompile rx with
       | none => .error ("Failed to compile regular expression \"" ++ rx ++ "\"")
       | some gi =>
         if "name" ∈ gi ∧ "language" ∈ gi then registry_mask_checks env opts
         else .error
           "Component regular expression lacks named group \"name\" and/or \"language\"") := by
  unfold parse_options
  rw [hcr]

theorem parse_options_error_of_mask (env : Env) (opts : Options)
    (h : maskOk opts.filemask = false) :
    ∃ e, parse_options env opts = .error e := by
  cases hcr : opts.component_regexp with
  | none =>
    rw [parse_options_none env opts hcr]
    exact registry_mask_error env opts h
  | some rx =>
    rw [parse_options_some env opts rx hcr]
    cases hre : env.reCompile rx with
    | none =>
      exact ⟨_, rfl⟩
    | some gi =>
      by_cases hg : "name" ∈ gi ∧ "language" ∈ gi
      · obtain ⟨e, he⟩ := registry_mask_error env opts h
        refine ⟨e, ?_⟩
        show (if "name" ∈ gi ∧ "language" ∈ gi then registry_mask_checks env opts
          else Except.error
            "Component regular expression lacks named group \"name\" and/or \"language\"") =
          Except.error e
        rw [if_pos hg]
        exact he
      · refine ⟨"Component regular expression lacks named group \"name\" and/or \"language\"", ?_⟩
        show (if "name" ∈ gi ∧ "language" ∈ gi then registry_mask_checks env opts
          else Except.error
            "Component regular expression lacks named group \"name\" and/or \"language\"") =
          Except.error
            "Component regular expression lacks named group \"name\" and/or \"language\""
        rw [if_neg hg]

theorem handle_parse_error (env : Env) (opts : Options) (e : String)
    (h : parse_options env opts = .error e) :
    handle env opts = (.error e, []) := by
  unfold handle
  rw [h]

/-! ### Claim theorems -/

/-- C10: `format_string` substitutes the match into the template only when
the template contains the literal `%s`; for every template without `%s` it
returns the template unchanged regardless of the match, so a
`--name-template` lacking `%s` gives every matched component the identical
name. -/
theorem C10_format_string_unchanged :
    ∀ t m : String, pyContains t "%s" = false →
      format_string t m = t ∧ ∀ m2 : String, format_string t m = format_string t m2 := by
  intro t m h
  constructor
  · unfold format_string
    rw [if_neg (by rw [h]; simp)]
  · intro m2
    unfold format_string
    rw [if_neg (by rw [h]; simp), if_neg (by rw [h]; simp)]

theorem C10_format_string_unchanged_witness :
    pyContains "Weblate" "%s" = false ∧ format_string "Weblate" "x" = "Weblate" :=
  ⟨by decide, (C10_format_string_unchanged "Weblate" "x" (by decide)).1⟩

/-- C8 counterexample: a submission with the preview flag unset leaves the
cleaned data with `show_preview` assigned the submitted value `false`, not
set (true) as the claim states. -/
theorem C8_counterexample :
    discovery_clean ⟨false, false, none⟩ = .ok ⟨true, false, some false⟩ ∧
    (⟨true, false, some false⟩ : DiscoveryData).show_preview ≠ some true :=
  ⟨rfl, by decide⟩

/-- C8 amended: with the preview flag unset (either confirm value) `clean`
succeeds, assigns `show_preview` the submitted value `false`, forces
`preview := true` and `confirm := false`, and the acceptor is not called;
with preview set and confirm unset `clean` raises a validation error and
the acceptor is not called; with both set `clean` clears both flags (and
records `show_preview = true`) and the acceptor is called with the cleaned
data. -/
theorem C8_discovery_flow :
    (discovery_clean ⟨false, false, none⟩ = .ok ⟨true, false, some false⟩ ∧
     discovery_clean ⟨false, true, none⟩ = .ok ⟨true, false, some false⟩ ∧
     discovery_submit ⟨false, false, none⟩ = none ∧
     discovery_submit ⟨false, true, none⟩ = none) ∧
    (discovery_clean ⟨true, false, none⟩ = .error "Please confirm matched components." ∧
     discovery_submit ⟨true, false, none⟩ = none) ∧
    (discovery_clean ⟨true, true, none⟩ = .ok ⟨false, false, some true⟩ ∧
     discovery_submit ⟨true, true, none⟩ = some ⟨false, false, some true⟩) :=
  ⟨⟨rfl, rfl, rfl, rfl⟩, ⟨rfl, rfl⟩, ⟨rfl, rfl⟩⟩

/-- C4 counterexample: the mask `**/**/*.po` does not contain exactly one
`**` (it contains two), yet option parsing accepts it: the code only
requires at least one `**` plus a `*` outside. -/
theorem C4_counterexample :
    pyCount "**/**/*.po" "**" = 2 ∧
    maskOk "**/**/*.po" = true ∧
    parse_options envEx { optsEx with filemask := "**/**/*.po" } = .ok () :=
  ⟨by decide, by decide, rfl⟩

/-- C4 amended: every file mask that fails the code's actual shape check —
containing `**` and still containing `*` after all `**` occurrences are
deleted — is rejected by option parsing with a fatal error, and the command
terminates with that error having emitted no effect (no clone, no glob, no
component creation). -/
theorem C4_mask_shape :
    ∀ (env : Env) (opts : Options), maskOk opts.filemask = false →
      ∃ e, parse_options env opts = .error e ∧ handle env opts = (.error e, []) := by
  intro env opts h
  obtain ⟨e, he⟩ := parse_options_error_of_mask env opts h
  exact ⟨e, he, handle_parse_error env opts e he⟩

theorem C4_mask_shape_witness :
    ∃ e, parse_options envEx { optsEx with filemask := "*.po" } = .error e ∧
      handle envEx { optsEx with filemask := "*.po" } = (.error e, []) :=
  C4_mask_shape envEx { optsEx with filemask := "*.po" } (by decide)

/-- C5: every custom `--component-regexp` that fails to compile or lacks a
named group `name` or `language` makes the command abort during option
parsing with a descriptive error; the command terminates with that error
having emitted no effect, so no clone, no checkout, no file enumeration and
no component creation happen. -/
theorem C5_component_regexp_validation :
    ∀ (env : Env) (opts : Options) (rx : String), opts.component_regexp = some rx →
      (env.reCompile rx = none ∨
       ∃ gi, env.reCompile rx = some gi ∧ ¬ ("name" ∈ gi ∧ "language" ∈ gi)) →
      ∃ e, parse_options env opts = .error e ∧ handle env opts = (.error e, []) := by
  intro env opts rx hcr hbad
  have hp : ∃ e, parse_options env opts = .error e := by
    rw [parse_options_some env opts rx hcr]
    rcases hbad with hnone | ⟨gi, hgi, hng⟩
    · rw [hnone]
      exact ⟨_, rfl⟩
    · rw [hgi]
      refine ⟨"Component regular expression lacks named group \"name\" and/or \"language\"", ?_⟩
      show (if "name" ∈ gi ∧ "language" ∈ gi then registry_mask_checks env opts
        else Except.error
          "Component regular expression lacks named group \"name\" and/or \"language\"") =
        Except.error
          "Component regular expression lacks named group \"name\" and/or \"language\""
      rw [if_neg hng]
  obtain ⟨e, he⟩ := hp
  exact ⟨e, he, handle_parse_error env opts e he⟩

theorem C5_component_regexp_validation_witness :
    ∃ e, parse_options envEx { optsEx with component_regexp := some "(" } = .error e ∧
      handle envEx { optsEx with component_regexp := some "(" } = (.error e, []) :=
  C5_component_regexp_validation envEx { optsEx with component_regexp := some "(" } "("
    rfl (Or.inl rfl)

/-! ### The duplicate-slug probing loop -/

theorem fus_go_found (comps : List (String × String)) (name base : String) :
    ∀ (fuel i k : Nat), i ≤ k → k < i + fuel →
      slugTaken comps base k = false →
      (∀ j, i ≤ j → j < k → slugTaken comps base j = true) →
      find_usable_slug_go comps name base fuel i = .ok (slugCandidate base k) := by
  intro fuel
  induction fuel with
  | zero =>
    intro i k h1 h2 _ _
    omega
  | succ fu ih =>
    intro i k h1 h2 hfree hall
    by_cases hik : i = k
    · subst hik
      unfold find_usable_slug_go
      rw [if_neg (by rw [hfree]; simp)]
    · have hlt : i < k := lt_of_le_of_ne h1 hik
      have hti : slugTaken comps base i = true := hall i le_rfl hlt
      unfold find_usable_slug_go
      rw [if_pos hti]
      exact ih (i + 1) k (by omega) (by omega) hfree (fun j hj1 hj2 => hall j (by omega) hj2)

theorem fus_go_exhaust (comps : List (String × String)) (name base : String) :
    ∀ (fuel i : Nat), (∀ j, i ≤ j → j < i + fuel → slugTaken comps base j = true) →
      find_usable_slug_go comps name base fuel i =
        .error ("Failed to find suitable name for " ++ name) := by
  intro fuel
  induction fuel with
  | zero => intro i _; rfl
  | succ fu ih =>
    intro i hall
    have hti : slugTaken comps base i = true := hall i le_rfl (by omega)
    unfold find_usable_slug_go
    rw [if_pos hti]
    exact ih (i + 1) (fun j hj1 hj2 => hall j (by omega) (by omega))

/-- C6: when the computed (name, slug) for a match collides with an
existing component of the project, the default (`duplicates = false`,
duplicate-skipping enabled) skips with a warning and creates no record;
with `--no-skip-duplicates` (`duplicates = true`) the names
`'<base> NNN'` are probed deterministically for `NNN` ascending from `001`
through `999`, the first candidate whose name and slug are both free is
created, and if all 999 candidates are taken the command aborts with a
fatal error. -/
theorem C6_duplicate_handling :
    ∀ (env : Env) (opts : Options) (shared : String)
      (comps : List (String × String)) (mtch : String),
      comps.any (fun c => c.1 = matchName env opts mtch || c.2 = matchSlug env opts mtch)
        = true →
      (opts.duplicates = false →
        process_match env opts shared comps mtch =
          (.ok comps, [Eff.warnDuplicate (matchName env opts mtch)])) ∧
      (opts.duplicates = true →
        (∀ k, 1 ≤ k → k ≤ 999 →
          slugTaken comps (matchBase env opts mtch) k = false →
          (∀ j, 1 ≤ j → j < k → slugTaken comps (matchBase env opts mtch) j = true) →
          process_match env opts shared comps mtch =
            (.ok (comps ++ [slugCandidate (matchBase env opts mtch) k]),
             [Eff.createComponent (slugCandidate (matchBase env opts mtch) k).1
               (slugCandidate (matchBase env opts mtch) k).2 shared])) ∧
        ((∀ j, 1 ≤ j → j ≤ 999 → slugTaken comps (matchBase env opts mtch) j = true) →
          process_match env opts shared comps mtch =
            (.error ("Failed to find suitable name for " ++ matchName env opts mtch), []))) := by
  intro env opts shared comps mtch hdup
  constructor
  · intro hd
    unfold process_match
    rw [if_pos hdup, if_pos (by rw [hd]; simp)]
  · intro hd
    constructor
    · intro k hk1 hk2 hfree hall
      have hfus : find_usable_slug (matchName env opts mtch) env.slugLen comps =
          .ok (slugCandidate (matchBase env opts mtch) k) := by
        unfold find_usable_slug find_usable_slug_from
        exact fus_go_found comps (matchName env opts mtch) (matchBase env opts mtch)
          (1000 - 1) 1 k hk1 (by omega) hfree hall
      unfold process_match
      rw [if_pos hdup, if_neg (by rw [hd]; simp), hfus]
    · intro hall
      have hfus : find_usable_slug (matchName env opts mtch) env.slugLen comps =
          .error ("Failed to find suitable name for " ++ matchName env opts mtch) := by
        unfold find_usable_slug find_usable_slug_from
        exact fus_go_exhaust comps (matchName env opts mtch) (matchBase env opts mtch)
          (1000 - 1) 1 (fun j hj1 hj2 => hall j hj1 (by omega))
      unfold process_match
      rw [if_pos hdup, if_neg (by rw [hd]; simp), hfus]

theorem C6_duplicate_handling_witness :
    process_match { envEx with components := compsEx } { optsEx with duplicates := true }
        "weblate://proj/b" compsEx "Comp" =
      (.ok (compsEx ++ [("Comp 002", "comp-002")]),
       [Eff.createComponent "Comp 002" "comp-002" "weblate://proj/b"]) := by
  have h := ((C6_duplicate_handling { envEx with components := compsEx }
    { optsEx with duplicates := true } "weblate://proj/b" compsEx "Comp"
    (by decide)).2 rfl).1 2 (by decide) (by decide) (by decide)
    (fun j hj1 hj2 => by
      have : j = 1 := by omega
      subst this
      decide)
  exact h

/-! ### The name/language collection loop -/

theorem collectNames_cons_none (matcher : String → Option (Option String × Option String))
    (f : String) (fs : List String) (h : matcher f = none) :
    collectNames matcher (f :: fs) =
      ((collectNames matcher fs).1, (collectNames matcher fs).2.1,
       Eff.warnSkip f :: (collectNames matcher fs).2.2) := by
  conv_lhs => unfold collectNames get_name
  rw [h]
  rfl

theorem collectNames_cons_some_none (matcher : String → Option (Option String × Option String))
    (f : String) (fs : List String) (l : Option String) (h : matcher f = some (none, l)) :
    collectNames matcher (f :: fs) = collectNames matcher fs := by
  conv_lhs => unfold collectNames get_name
  rw [h]
  rfl

theorem collectNames_cons_truthy (matcher : String → Option (Option String × Option String))
    (f : String) (fs : List String) (n : String) (l : Option String)
    (h : matcher f = some (some n, l)) (hn : n ≠ "") :
    collectNames matcher (f :: fs) =
      (n :: (collectNames matcher fs).1, l :: (collectNames matcher fs).2.1,
       (collectNames matcher fs).2.2) := by
  conv_lhs => unfold collectNames get_name
  rw [h]
  simp only [if_pos hn]
  rfl

theorem collectNames_cons_blank (matcher : String → Option (Option String × Option String))
    (f : String) (fs : List String) (l : Option String)
    (h : matcher f = some (some "", l)) :
    collectNames matcher (f :: fs) = collectNames matcher fs := by
  conv_lhs => unfold collectNames get_name
  rw [h]
  simp

theorem collect_warn_mem (matcher : String → Option (Option String × Option String)) :
    ∀ (fs : List String) (f : String), f ∈ fs → matcher f = none →
      Eff.warnSkip f ∈ (collectNames matcher fs).2.2 := by
  intro fs
  induction fs with
  | nil => intro f h; cases h
  | cons a fs2 ih =>
    intro f hf hm
    rcases List.mem_cons.mp hf with heq | hf2
    · subst heq
      rw [collectNames_cons_none matcher f fs2 hm]
      exact List.mem_cons_self _ _
    · cases hma : matcher a with
      | none =>
        rw [collectNames_cons_none matcher a fs2 hma]
        exact List.mem_cons_of_mem _ (ih f hf2 hm)
      | some p =>
        rcases p with ⟨n, l⟩
        cases n with
        | none =>
          rw [collectNames_cons_some_none matcher a fs2 l hma]
          exact ih f hf2 hm
        | some nv =>
          by_cases hnv : nv = ""
          · subst hnv
            rw [collectNames_cons_blank matcher a fs2 l hma]
            exact ih f hf2 hm
          · rw [collectNames_cons_truthy matcher a fs2 nv l hma hnv]
            exact ih f hf2 hm

theorem collect_filter_eq (matcher : String → Option (Option String × Option String)) :
    ∀ fs : List String,
      (collectNames matcher fs).1 =
        (collectNames matcher (fs.filter (fun q => (matcher q).isSome))).1 ∧
      (collectNames matcher fs).2.1 =
        (collectNames matcher (fs.filter (fun q => (matcher q).isSome))).2.1 := by
  intro fs
  induction fs with
  | nil => exact ⟨rfl, rfl⟩
  | cons a fs2 ih =>
    cases hma : matcher a with
    | none =>
      have hfil : (a :: fs2).filter (fun q => (matcher q).isSome) =
          fs2.filter (fun q => (matcher q).isSome) := by
        simp [List.filter_cons, hma]
      rw [collectNames_cons_none matcher a fs2 hma, hfil]
      exact ih
    | some p =>
      have hfil : (a :: fs2).filter (fun q => (matcher q).isSome) =
          a :: fs2.filter (fun q => (matcher q).isSome) := by
        simp [List.filter_cons, hma]
      rcases p with ⟨n, l⟩
      cases n with
      | none =>
        rw [collectNames_cons_some_none matcher a fs2 l hma, hfil,
          collectNames_cons_some_none matcher a _ l hma]
        exact ih
      | some nv =>
        by_cases hnv : nv = ""
        · subst hnv
          rw [collectNames_cons_blank matcher a fs2 l hma, hfil,
            collectNames_cons_blank matcher a _ l hma]
          exact ih
        · rw [collectNames_cons_truthy matcher a fs2 nv l hma hnv, hfil,
            collectNames_cons_truthy matcher a _ nv l hma hnv]
          exact ⟨by rw [ih.1], by rw [ih.2]⟩

/-- C9: a file enumerated by the glob whose path does not match the
component regular expression is skipped with a warning, contributes no
component name and no language token (the collected names and languages
equal those collected from the matching files alone), and such files never
by themselves abort the run: whenever at least one file matched the glob
and at least one collected language is a known code,
`get_matching_subprojects` succeeds. -/
theorem C9_nonmatching_skipped :
    ∀ (env : Env) (matcher : String → Option (Option String × Option String)) (f : String),
      f ∈ env.files → matcher f = none →
      Eff.warnSkip f ∈ (collectNames matcher env.files).2.2 ∧
      ((collectNames matcher env.files).1 =
        (collectNames matcher (env.files.filter (fun q => (matcher q).isSome))).1 ∧
       (collectNames matcher env.files).2.1 =
        (collectNames matcher (env.files.filter (fun q => (matcher q).isSome))).2.1) ∧
      (env.files ≠ [] →
       (collectNames matcher env.files).2.1.any
         (fun l => env.langCodes.any (fun c => l = some c)) = true →
       get_matching_subprojects env matcher =
         (.ok (sortedStrings (collectNames matcher env.files).1),
          (collectNames matcher env.files).2.2)) := by
  intro env matcher f hf hm
  refine ⟨collect_warn_mem matcher env.files f hf hm, collect_filter_eq matcher env.files, ?_⟩
  intro hne hlang
  unfold get_matching_subprojects
  rw [if_neg hne, if_neg (by rw [hlang]; simp)]

theorem C9_nonmatching_skipped_witness :
    Eff.warnSkip "junk.txt" ∈
      (collectNames (maskMatcher "**/*.po") envC9.files).2.2 ∧
    get_matching_subprojects envC9 (maskMatcher "**/*.po") =
      (.ok (sortedStrings (collectNames (maskMatcher "**/*.po") envC9.files).1),
       (collectNames (maskMatcher "**/*.po") envC9.files).2.2) := by
  have h := C9_nonmatching_skipped envC9 (maskMatcher "**/*.po") "junk.txt"
    (by decide) (by decide)
  exact ⟨h.1, h.2.2 (by decide) (by decide)⟩

/-! ### Effects of the enumeration and the temporary directory -/

theorem collect_effs_warn (matcher : String → Option (Option String × Option String)) :
    ∀ (fs : List String) (e : Eff), e ∈ (collectNames matcher fs).2.2 →
      ∃ f, e = Eff.warnSkip f := by
  intro fs
  induction fs with
  | nil => intro e he; cases he
  | cons a fs2 ih =>
    intro e he
    cases hma : matcher a with
    | none =>
      rw [collectNames_cons_none matcher a fs2 hma] at he
      rcases List.mem_cons.mp he with heq | hmem
      · exact ⟨a, heq⟩
      · exact ih e hmem
    | some p =>
      rcases p with ⟨n, l⟩
      cases n with
      | none =>
        rw [collectNames_cons_some_none matcher a fs2 l hma] at he
        exact ih e he
      | some nv =>
        by_cases hnv : nv = ""
        · subst hnv
          rw [collectNames_cons_blank matcher a fs2 l hma] at he
          exact ih e he
        · rw [collectNames_cons_truthy matcher a fs2 nv l hma hnv] at he
          exact ih e he

theorem gms_effs (env : Env) (matcher : String → Option (Option String × Option String))
    (r : Except String (List String)) (tr : List Eff)
    (h : get_matching_subprojects env matcher = (r, tr)) :
    ∀ e ∈ tr, ∃ f, e = Eff.warnSkip f := by
  unfold get_matching_subprojects at h
  by_cases hf : env.files = []
  · rw [if_pos hf] at h
    cases h
    intro e he
    cases he
  · rw [if_neg hf] at h
    split at h
    · cases h
      exact collect_effs_warn matcher env.files
    · cases h
      exact collect_effs_warn matcher env.files

/-! ### Branch equations for `import_initial` -/

theorem import_initial_err_gms (env : Env) (opts : Options)
    (matcher : String → Option (Option String × Option String)) (p : String)
    (e : String) (tr : List Eff)
    (hg : get_matching_subprojects env matcher = (.error e, tr)) :
    import_initial env opts matcher p = (.error e, [Eff.mkTmpDir, Eff.clone] ++ tr) := by
  unfold import_initial
  simp only [hg]

theorem import_initial_err_sel (env : Env) (opts : Options)
    (matcher : String → Option (Option String × Option String)) (p : String)
    (ms : List String) (tr : List Eff) (e : String)
    (hg : get_matching_subprojects env matcher = (.ok ms, tr))
    (hsel : import_select opts ms = .error e) :
    import_initial env opts matcher p = (.error e, [Eff.mkTmpDir, Eff.clone] ++ tr) := by
  unfold import_initial
  simp only [hg, hsel]

theorem import_initial_ok_exists (env : Env) (opts : Options)
    (matcher : String → Option (Option String × Option String)) (p : String)
    (ms rest : List String) (tr : List Eff) (mtch : String)
    (hg : get_matching_subprojects env matcher = (.ok ms, tr))
    (hsel : import_select opts ms = .ok (mtch, rest))
    (hc : env.components.any (fun c => c.2 = matchSlug env opts mtch) = true) :
    import_initial env opts matcher p =
      (.ok (rest, "weblate://" ++ p ++ "/" ++ matchSlug env opts mtch, env.components),
       [Eff.mkTmpDir, Eff.clone] ++ tr ++
         [Eff.warnMainExists (matchName env opts mtch), Eff.rmTmpDir]) := by
  unfold import_initial
  simp only [hg, hsel, hc, if_true]

theorem import_initial_ok_new (env : Env) (opts : Options)
    (matcher : String → Option (Option String × Option String)) (p : String)
    (ms rest : List String) (tr : List Eff) (mtch : String)
    (hg : get_matching_subprojects env matcher = (.ok ms, tr))
    (hsel : import_select opts ms = .ok (mtch, rest))
    (hc : env.components.any (fun c => c.2 = matchSlug env opts mtch) = false) :
    import_initial env opts matcher p =
      (.ok (rest, "weblate://" ++ p ++ "/" ++ matchSlug env opts mtch,
        env.components ++ [(matchName env opts mtch, matchSlug env opts mtch)]),
       [Eff.mkTmpDir, Eff.clone] ++ tr ++
         [Eff.renameTmpDir (matchSlug env opts mtch),
          Eff.createComponent (matchName env opts mtch) (matchSlug env opts mtch)
            opts.repo]) := by
  unfold import_initial
  simp only [hg, hsel, hc, Bool.false_eq_true, if_false]

/-- C7 counterexample: when the mask matches no files the command aborts
AFTER creating the temporary checkout (mkTmpDir, clone) and the temporary
directory is neither removed nor renamed — it is leaked, contradicting the
claim that every non-consuming path removes it. -/
theorem C7_counterexample :
    import_initial envNoFiles optsEx (maskMatcher "**/*.po") "proj" =
      (.error "Your mask did not match any files!", [Eff.mkTmpDir, Eff.clone]) ∧
    Eff.rmTmpDir ∉ ([Eff.mkTmpDir, Eff.clone] : List Eff) ∧
    Eff.renameTmpDir "b" ∉ ([Eff.mkTmpDir, Eff.clone] : List Eff) :=
  ⟨rfl, by decide, by decide⟩

/-- C7 amended: `import_initial` always creates the temporary checkout
(mkTmpDir and clone are in its trace); on every ERROR path (no matching
files, no recognized languages, `--main-component` not found) the
temporary directory is neither removed nor renamed — it is leaked; only on
the success paths is it consumed, either removed (same-slug component
already exists) or renamed into place (main component created). -/
theorem C7_tmpdir_disposition :
    ∀ (env : Env) (opts : Options)
      (matcher : String → Option (Option String × Option String)) (p : String),
      (Eff.mkTmpDir ∈ (import_initial env opts matcher p).2 ∧
       Eff.clone ∈ (import_initial env opts matcher p).2) ∧
      ((∃ e, (import_initial env opts matcher p).1 = .error e) →
        Eff.rmTmpDir ∉ (import_initial env opts matcher p).2 ∧
        ∀ s, Eff.renameTmpDir s ∉ (import_initial env opts matcher p).2) ∧
      (∀ v, (import_initial env opts matcher p).1 = .ok v →
        Eff.rmTmpDir ∈ (import_initial env opts matcher p).2 ∨
        ∃ s, Eff.renameTmpDir s ∈ (import_initial env opts matcher p).2) := by
  intro env opts matcher p
  rcases hg : get_matching_subprojects env matcher with ⟨r, tr⟩
  have htr : ∀ e ∈ tr, ∃ f, e = Eff.warnSkip f := gms_effs env matcher r tr hg
  cases r with
  | error e =>
    rw [import_initial_err_gms env opts matcher p e tr hg]
    refine ⟨⟨by simp, by simp⟩, ?_, ?_⟩
    · intro _
      constructor
      · intro hmem
        simp only [List.cons_append, List.nil_append, List.mem_cons] at hmem
        rcases hmem with h1 | h2 | h3
        · cases h1
        · cases h2
        · obtain ⟨f, hf⟩ := htr _ h3
          cases hf
      · intro s hmem
        simp only [List.cons_append, List.nil_append, List.mem_cons] at hmem
        rcases hmem with h1 | h2 | h3
        · cases h1
        · cases h2
        · obtain ⟨f, hf⟩ := htr _ h3
          cases hf
    · intro v hv
      cases hv
  | ok ms =>
    cases hsel : import_select opts ms with
    | error e =>
      rw [import_initial_err_sel env opts matcher p ms tr e hg hsel]
      refine ⟨⟨by simp, by simp⟩, ?_, ?_⟩
      · intro _
        constructor
        · intro hmem
          simp only [List.cons_append, List.nil_append, List.mem_cons] at hmem
          rcases hmem with h1 | h2 | h3
          · cases h1
          · cases h2
          · obtain ⟨f, hf⟩ := htr _ h3
            cases hf
        · intro s hmem
          simp only [List.cons_append, List.nil_append, List.mem_cons] at hmem
          rcases hmem with h1 | h2 | h3
          · cases h1
          · cases h2
          · obtain ⟨f, hf⟩ := htr _ h3
            cases hf
      · intro v hv
        cases hv
    | ok pr =>
      rcases pr with ⟨mtch, rest⟩
      by_cases hc : env.components.any (fun c => c.2 = matchSlug env opts mtch) = true
      · rw [import_initial_ok_exists env opts matcher p ms rest tr mtch hg hsel hc]
        refine ⟨⟨by simp, by simp⟩, ?_, ?_⟩
        · rintro ⟨e, he⟩
          simp at he
        · intro v hv
          left
          simp
      · rw [import_initial_ok_new env opts matcher p ms rest tr mtch hg hsel
          (Bool.not_eq_true _ ▸ hc)]
        refine ⟨⟨by simp, by simp⟩, ?_, ?_⟩
        · rintro ⟨e, he⟩
          simp at he
        · intro v hv
          right
          exact ⟨matchSlug env opts mtch, by simp⟩

theorem C7_tmpdir_disposition_witness :
    Eff.rmTmpDir ∉ (import_initial envNoFiles optsEx (maskMatcher "**/*.po") "proj").2 ∧
    Eff.mkTmpDir ∈ (import_initial envNoFiles optsEx (maskMatcher "**/*.po") "proj").2 := by
  have h := C7_tmpdir_disposition envNoFiles optsEx (maskMatcher "**/*.po") "proj"
  exact ⟨(h.2.1 ⟨"Your mask did not match any files!", rfl⟩).1, h.1.1⟩

/-! ### Main-component selection -/

/-- C3 counterexample: for a direct repository URL, no `--main-component`
and two matches, the sorted distinct names are `["a", "b"]` whose first
element is `"a"`, yet the component that owns the full checkout (the
temporary directory is renamed to its slug and it is created with the
direct URL) is `"b"` — Python's `matches.pop()` takes the LAST element,
not the first. -/
theorem C3_counterexample :
    get_matching_subprojects envEx (maskMatcher "**/*.po") = (.ok ["a", "b"], []) ∧
    (["a", "b"] : List String).head? = some "a" ∧
    import_initial envEx optsEx (maskMatcher "**/*.po") "proj" =
      (.ok (["a"], "weblate://proj/b", [("b", "b")]),
       [Eff.mkTmpDir, Eff.clone, Eff.renameTmpDir "b",
        Eff.createComponent "b" "b" "https://example.com/repo.git"]) ∧
    ("b" : String) ≠ "a" :=
  ⟨rfl, rfl, rfl, by decide⟩

/-- C3 amended: when no `--main-component` is given and the repository
argument is a direct URL, the LAST match of the sorted list of distinct
component names becomes the main component owning the full checkout: the
temporary directory is renamed into place for it and it is created with
the direct repository URL — unless a component with the same slug already
exists in the project, in which case creation is skipped with a warning,
the temporary directory is removed, and the existing component is reused
as main (the shared repository back-reference points at its slug). -/
theorem C3_main_selection :
    ∀ (env : Env) (opts : Options)
      (matcher : String → Option (Option String × Option String)) (p : String)
      (ms rest : List String) (m : String) (tr : List Eff),
      opts.main_component = none →
      get_matching_subprojects env matcher = (.ok ms, tr) →
      ms = rest ++ [m] →
      (env.components.any (fun c => c.2 = matchSlug env opts m) = true →
        import_initial env opts matcher p =
          (.ok (rest, "weblate://" ++ p ++ "/" ++ matchSlug env opts m, env.components),
           [Eff.mkTmpDir, Eff.clone] ++ tr ++
             [Eff.warnMainExists (matchName env opts m), Eff.rmTmpDir])) ∧
      (env.components.any (fun c => c.2 = matchSlug env opts m) = false →
        import_initial env opts matcher p =
          (.ok (rest, "weblate://" ++ p ++ "/" ++ matchSlug env opts m,
            env.components ++ [(matchName env opts m, matchSlug env opts m)]),
           [Eff.mkTmpDir, Eff.clone] ++ tr ++
             [Eff.renameTmpDir (matchSlug env opts m),
              Eff.createComponent (matchName env opts m) (matchSlug env opts m)
                opts.repo])) := by
  intro env opts matcher p ms rest m tr hmc hg hms
  have hsel : import_select opts ms = .ok (m, rest) := by
    unfold import_select
    rw [hmc, hms]
    simp only [List.getLast?_concat, List.dropLast_concat]
  constructor
  · intro hc
    exact import_initial_ok_exists env opts matcher p ms rest tr m hg hsel hc
  · intro hc
    exact import_initial_ok_new env opts matcher p ms rest tr m hg hsel hc

theorem C3_main_selection_witness :
    import_initial envEx optsEx (maskMatcher "**/*.po") "proj" =
      (.ok (["a"], "weblate://proj/b", envEx.components ++ [("b", "b")]),
       [Eff.mkTmpDir, Eff.clone] ++ [] ++
         [Eff.renameTmpDir "b",
          Eff.createComponent "b" "b" "https://example.com/repo.git"]) := by
  have h := (C3_main_selection envEx optsEx (maskMatcher "**/*.po") "proj"
    ["a", "b"] ["a"] "b" [] rfl rfl rfl).2 (by decide)
  exact h

/-! ### Matching derivations for substituted paths -/

theorem em_post (nm lg : List Char) :
    ∀ (g : List GlobItem) (n0 : Option (List Char)),
      g.count GlobItem.dstar ≤ 1 →
      ((GlobItem.dstar ∈ g ∧ n0 = none) ∨ (GlobItem.dstar ∉ g ∧ n0 = some nm)) →
      EM n0 (some lg) (g.flatMap elemPost) (substGlob nm lg g) (some nm) (some lg) := by
  intro g
  induction g with
  | nil =>
    intro n0 _ hd
    rcases hd with ⟨habs, _⟩ | ⟨_, rfl⟩
    · cases habs
    · exact EM.nil _ _
  | cons it g2 ih =>
    intro n0 hcnt hd
    cases it with
    | lit c =>
      show EM n0 (some lg) (RElem.lit c :: g2.flatMap elemPost)
        (c :: substGlob nm lg g2) (some nm) (some lg)
      apply EM.lit
      apply ih n0
      · have : (GlobItem.lit c :: g2).count GlobItem.dstar = g2.count GlobItem.dstar := by
          simp [List.count_cons]
        omega
      · rcases hd with ⟨hm, h0⟩ | ⟨hm, h0⟩
        · exact Or.inl ⟨by simpa using hm, h0⟩
        · exact Or.inr ⟨fun hx => hm (List.mem_cons_of_mem _ hx), h0⟩
    | star =>
      show EM n0 (some lg) (RElem.langRef :: g2.flatMap elemPost)
        (lg ++ substGlob nm lg g2) (some nm) (some lg)
      apply EM.ref
      apply ih n0
      · have : (GlobItem.star :: g2).count GlobItem.dstar = g2.count GlobItem.dstar := by
          simp [List.count_cons]
        omega
      · rcases hd with ⟨hm, h0⟩ | ⟨hm, h0⟩
        · exact Or.inl ⟨by simpa using hm, h0⟩
        · exact Or.inr ⟨fun hx => hm (List.mem_cons_of_mem _ hx), h0⟩
    | dstar =>
      have hcnt2 : g2.count GlobItem.dstar = 0 := by
        have : (GlobItem.dstar :: g2).count GlobItem.dstar = g2.count GlobItem.dstar + 1 := by
          simp [List.count_cons]
        omega
      have h0 : n0 = none := by
        rcases hd with ⟨_, h0⟩ | ⟨hm, _⟩
        · exact h0
        · exact absurd (List.mem_cons_self _ _) hm
      subst h0
      show EM none (some lg) (RElem.nameGroup :: g2.flatMap elemPost)
        (nm ++ substGlob nm lg g2) (some nm) (some lg)
      apply EM.name
      apply ih (some nm)
      · omega
      · exact Or.inr ⟨by rw [← List.count_eq_zero]; exact hcnt2, rfl⟩

theorem em_pre (nm lg : List Char) :
    ∀ (g : List GlobItem) (n0 : Option (List Char)),
      g.count GlobItem.dstar ≤ 1 →
      GlobItem.star ∈ g →
      ((GlobItem.dstar ∈ g ∧ n0 = none) ∨ (GlobItem.dstar ∉ g ∧ n0 = some nm)) →
      EM n0 none (elemsOf g) (substGlob nm lg g) (some nm) (some lg) := by
  intro g
  induction g with
  | nil =>
    intro n0 _ hstar _
    cases hstar
  | cons it g2 ih =>
    intro n0 hcnt hstar hd
    cases it with
    | star =>
      show EM n0 none (RElem.langGroup :: g2.flatMap elemPost)
        (lg ++ substGlob nm lg g2) (some nm) (some lg)
      apply EM.lang
      apply em_post nm lg g2 n0
      · have : (GlobItem.star :: g2).count GlobItem.dstar = g2.count GlobItem.dstar := by
          simp [List.count_cons]
        omega
      · rcases hd with ⟨hm, h0⟩ | ⟨hm, h0⟩
        · exact Or.inl ⟨by simpa using hm, h0⟩
        · exact Or.inr ⟨fun hx => hm (List.mem_cons_of_mem _ hx), h0⟩
    | lit c =>
      have hstar2 : GlobItem.star ∈ g2 := by
        rcases List.mem_cons.mp hstar with h | h
        · cases h
        · exact h
      show EM n0 none (RElem.lit c :: elemsOf g2)
        (c :: substGlob nm lg g2) (some nm) (some lg)
      apply EM.lit
      apply ih n0
      · have : (GlobItem.lit c :: g2).count GlobItem.dstar = g2.count GlobItem.dstar := by
          simp [List.count_cons]
        omega
      · exact hstar2
      · rcases hd with ⟨hm, h0⟩ | ⟨hm, h0⟩
        · exact Or.inl ⟨by simpa using hm, h0⟩
        · exact Or.inr ⟨fun hx => hm (List.mem_cons_of_mem _ hx), h0⟩
    | dstar =>
      have hstar2 : GlobItem.star ∈ g2 := by
        rcases List.mem_cons.mp hstar with h | h
        · cases h
        · exact h
      have hcnt2 : g2.count GlobItem.dstar = 0 := by
        have : (GlobItem.dstar :: g2).count GlobItem.dstar = g2.count GlobItem.dstar + 1 := by
          simp [List.count_cons]
        omega
      have h0 : n0 = none := by
        rcases hd with ⟨_, h0⟩ | ⟨hm, _⟩
        · exact h0
        · exact absurd (List.mem_cons_self _ _) hm
      subst h0
      show EM none none (RElem.nameGroup :: elemsOf g2)
        (nm ++ substGlob nm lg g2) (some nm) (some lg)
      apply EM.name
      apply ih (some nm)
      · omega
      · exact hstar2
      · exact Or.inr ⟨by rw [← List.count_eq_zero]; exact hcnt2, rfl⟩

theorem nameGroup_mem (g : List GlobItem) (hd : GlobItem.dstar ∈ g) :
    RElem.nameGroup ∈ elemsOf g := by
  induction g with
  | nil => cases hd
  | cons it g2 ih =>
    cases it with
    | star =>
      have hd2 : GlobItem.dstar ∈ g2 := by
        rcases List.mem_cons.mp hd with h | h
        · cases h
        · exact h
      show RElem.nameGroup ∈ RElem.langGroup :: g2.flatMap elemPost
      refine List.mem_cons_of_mem _ ?_
      rw [List.mem_flatMap]
      exact ⟨GlobItem.dstar, hd2, by simp [elemPost]⟩
    | lit c =>
      have hd2 : GlobItem.dstar ∈ g2 := by
        rcases List.mem_cons.mp hd with h | h
        · cases h
        · exact h
      show RElem.nameGroup ∈ RElem.lit c :: elemsOf g2
      exact List.mem_cons_of_mem _ (ih hd2)
    | dstar =>
      show RElem.nameGroup ∈ RElem.nameGroup :: elemsOf g2
      exact List.mem_cons_self _ _

theorem langGroup_mem (g : List GlobItem) (hs : GlobItem.star ∈ g) :
    RElem.langGroup ∈ elemsOf g := by
  induction g with
  | nil => cases hs
  | cons it g2 ih =>
    cases it with
    | star =>
      show RElem.langGroup ∈ RElem.langGroup :: g2.flatMap elemPost
      exact List.mem_cons_self _ _
    | lit c =>
      have hs2 : GlobItem.star ∈ g2 := by
        rcases List.mem_cons.mp hs with h | h
        · cases h
        · exact h
      show RElem.langGroup ∈ RElem.lit c :: elemsOf g2
      exact List.mem_cons_of_mem _ (ih hs2)
    | dstar =>
      have hs2 : GlobItem.star ∈ g2 := by
        rcases List.mem_cons.mp hs with h | h
        · cases h
        · exact h
      show RElem.langGroup ∈ RElem.nameGroup :: elemsOf g2
      exact List.mem_cons_of_mem _ (ih hs2)

/-! ### Shape of any match of the `*/**/*.po` regex -/

theorem exMask_match_shape (path : List Char) (n2 l2 : Option (List Char))
    (h : EM none none
      [RElem.langGroup, RElem.lit '/', RElem.nameGroup, RElem.lit '/',
       RElem.langRef, RElem.lit '.', RElem.lit 'p', RElem.lit 'o'] path n2 l2) :
    ∃ w v, path = w ++ '/' :: (v ++ '/' :: (w ++ ['.', 'p', 'o'])) := by
  cases h with
  | lang w n1 es1 s1 n2a l2a h1 =>
    cases h1 with
    | lit c1 nb lb esb sb n2b l2b h2 =>
      cases h2 with
      | name v lc esc sc n2c l2c h3 =>
        cases h3 with
        | lit c2 nd ld esd sd n2d l2d h4 =>
          cases h4 with
          | ref w2 ne2 ese se n2e l2e h5 =>
            cases h5 with
            | lit c3 nf lf esf sf n2f l2f h6 =>
              cases h6 with
              | lit c4 ng lg2 esg sg n2g l2g h7 =>
                cases h7 with
                | lit c5 nh lh esh sh n2h l2h h8 =>
                  cases h8 with
                  | nil n l =>
                    exact ⟨w, v, by simp⟩

theorem slash_split (x : List Char) :
    ∀ (y a b : List Char), ('/' : Char) ∉ x → ('/' : Char) ∉ y →
      x ++ '/' :: a = y ++ '/' :: b → x = y ∧ a = b := by
  induction x with
  | nil =>
    intro y a b _ hy h
    cases y with
    | nil =>
      rw [List.nil_append, List.nil_append] at h
      injection h with _ h2
      exact ⟨rfl, h2⟩
    | cons d ys =>
      rw [List.nil_append, List.cons_append] at h
      injection h with h1 _
      rw [← h1] at hy
      exact absurd (List.mem_cons_self _ _) hy
  | cons e xs ih =>
    intro y a b hx hy h
    cases y with
    | nil =>
      rw [List.cons_append, List.nil_append] at h
      injection h with h1 _
      rw [h1] at hx
      exact absurd (List.mem_cons_self _ _) hx
    | cons d ys =>
      rw [List.cons_append, List.cons_append] at h
      injection h with h1 h2
      obtain ⟨hxy, hab⟩ := ih ys a b (fun hm => hx (List.mem_cons_of_mem _ hm))
        (fun hm => hy (List.mem_cons_of_mem _ hm)) h2
      exact ⟨by rw [h1, hxy], hab⟩

/-- Both language slots of a successful match of the `*/**/*.po` regex
consume the same text: a path assembled with slash-free name and differing
slash-free language segments therefore cannot match. -/
theorem exMask_language_consistent (l1 nm l2 : List Char)
    (h1 : ('/' : Char) ∉ l1) (h2 : ('/' : Char) ∉ nm) (h3 : ('/' : Char) ∉ l2)
    (hne : l1 ≠ l2) :
    ∀ n2 r2, ¬ EM none none (elemsOf exItems)
      (l1 ++ '/' :: (nm ++ '/' :: (l2 ++ ['.', 'p', 'o']))) n2 r2 := by
  intro n2 r2 hEM
  have he : elemsOf exItems =
      [RElem.langGroup, RElem.lit '/', RElem.nameGroup, RElem.lit '/',
       RElem.langRef, RElem.lit '.', RElem.lit 'p', RElem.lit 'o'] := by decide
  rw [he] at hEM
  obtain ⟨w, v, hpath⟩ := exMask_match_shape _ _ _ hEM
  have hcl1 : l1.count '/' = 0 := List.count_eq_zero.mpr h1
  have hcnm : nm.count '/' = 0 := List.count_eq_zero.mpr h2
  have hcl2 : l2.count '/' = 0 := List.count_eq_zero.mpr h3
  have hcount := congrArg (fun t => t.count '/') hpath
  simp only [List.count_append, List.count_cons] at hcount
  have hw0 : w.count '/' = 0 ∧ v.count '/' = 0 := by
    constructor <;> omega
  have hs1 := slash_split l1 w (nm ++ '/' :: (l2 ++ ['.', 'p', 'o']))
    (v ++ '/' :: (w ++ ['.', 'p', 'o'])) h1
    (by rw [← List.count_eq_zero]; exact hw0.1) hpath
  have hs2 := slash_split nm v (l2 ++ ['.', 'p', 'o']) (w ++ ['.', 'p', 'o']) h2
    (by rw [← List.count_eq_zero]; exact hw0.2) hs1.2
  have hl2w : l2 = w := List.append_cancel_right hs2.2
  exact hne (hs1.1.trans hl2w.symm)

/-- C1: for a structured file mask with exactly one double-wildcard
segment (and at least one single wildcard, wildcards non-adjacent,
literals escapable) and no custom component regex, `match_regexp`
produces its regex by translating the glob and substituting: the double
wildcard becomes the named group `name`, the first (leftmost) remaining
single wildcard becomes the named group `language`, and every subsequent
single wildcard becomes a back-reference to the captured language — this
is exactly the rendering of `elemsOf`.  Consequently, for the mask
`*/**/*.po` whose language wildcard repeats, a path assembled from
slash-free segments whose two language segments differ admits no match of
the produced regex. -/
theorem C1_mask_regexp :
    (∀ g : List GlobItem, itemsOKb g = true → noAdjB g = true →
       g.count GlobItem.dstar = 1 → GlobItem.star ∈ g →
       matchRegexpChars (renderGlob g) = rxRenderList (elemsOf g) ++ suffixZ) ∧
    match_regexp "*/**/*.po" =
      "(?P<language>.*)\\/(?P<name>.*)\\/(?P=language)\\.po\\Z(?s)" ∧
    (∀ l1 nm l2 : List Char, ('/' : Char) ∉ l1 → ('/' : Char) ∉ nm →
       ('/' : Char) ∉ l2 → l1 ≠ l2 →
       ∀ n2 r2, ¬ EM none none (elemsOf exItems)
         (l1 ++ '/' :: (nm ++ '/' :: (l2 ++ ['.', 'p', 'o']))) n2 r2) := by
  refine ⟨?_, rfl, exMask_language_consistent⟩
  intro g hok hadj _ _
  exact mask_pipeline_render g hok hadj

theorem C1_mask_regexp_witness :
    matchRegexpChars (renderGlob exItems) = rxRenderList (elemsOf exItems) ++ suffixZ ∧
    ¬ EM none none (elemsOf exItems)
      ("cs".data ++ '/' :: ("comp".data ++ '/' :: ("de".data ++ ['.', 'p', 'o'])))
      (some "comp".data) (some "cs".data) :=
  ⟨C1_mask_regexp.1 exItems (by decide) (by decide) (by decide) (by decide),
   C1_mask_regexp.2.2 "cs".data "comp".data "de".data (by decide) (by decide)
     (by decide) (by decide) (some "comp".data) (some "cs".data)⟩

/-- C2 counterexample: for the glob `a**cs*b` (exactly one `**`, one other
`*`) and tokens name = `name`, language = `cs`, the substituted string is
`anamecscsb`, but the regex engine's leftmost-greedy match returns
name = `namecs` and language = `` (empty), not the original tokens: the
glob's literal text `cs` overlaps the language token, so the round-trip
fails. -/
theorem C2_roundtrip_counterexample :
    renderGlob c2Items = "a**cs*b".data ∧
    substGlob "name".data "cs".data c2Items = "anamecscsb".data ∧
    match_regexp "a**cs*b" = "a(?P<name>.*)cs(?P<language>.*)b\\Z(?s)" ∧
    elemsOf c2Items =
      [RElem.lit 'a', RElem.nameGroup, RElem.lit 'c', RElem.lit 's',
       RElem.langGroup, RElem.lit 'b'] ∧
    emFirst none none (elemsOf c2Items) "anamecscsb".data =
      some (some "namecs".data, some []) ∧
    (some (some "namecs".data, some ([] : List Char)) ≠
      some (some "name".data, some "cs".data)) :=
  ⟨by decide, by decide, rfl, by decide, by decide, by decide⟩

/-- C2 amended: for every structured glob with exactly one `**` and at
least one other `*` (wildcards non-adjacent, literals escapable) and any
name/language tokens, the derived element list contains both named capture
groups `name` and `language`, the regex text produced by `match_regexp` is
its rendering, and the string obtained by substituting the tokens into the
glob matches the regex with a capture assignment that yields back exactly
those tokens.  (The engine's deterministic leftmost-greedy match may pick
a different assignment when the glob's literal text overlaps the tokens —
see the counterexample.) -/
theorem C2_roundtrip_amended :
    ∀ (g : List GlobItem) (nmTok lgTok : List Char),
      itemsOKb g = true → noAdjB g = true →
      g.count GlobItem.dstar = 1 → GlobItem.star ∈ g →
      (RElem.nameGroup ∈ elemsOf g ∧ RElem.langGroup ∈ elemsOf g) ∧
      matchRegexpChars (renderGlob g) = rxRenderList (elemsOf g) ++ suffixZ ∧
      EM none none (elemsOf g) (substGlob nmTok lgTok g)
        (some nmTok) (some lgTok) := by
  intro g nm lg hok hadj hcnt hstar
  have hd : GlobItem.dstar ∈ g := by
    have hpos : 0 < g.count GlobItem.dstar := by omega
    exact List.count_pos_iff.mp hpos
  refine ⟨⟨nameGroup_mem g hd, langGroup_mem g hstar⟩,
    mask_pipeline_render g hok hadj, ?_⟩
  exact em_pre nm lg g none (by omega) hstar (Or.inl ⟨hd, rfl⟩)

theorem C2_roundtrip_amended_witness :
    (RElem.nameGroup ∈ elemsOf c2Items ∧ RElem.langGroup ∈ elemsOf c2Items) ∧
    matchRegexpChars (renderGlob c2Items) = rxRenderList (elemsOf c2Items) ++ suffixZ ∧
    EM none none (elemsOf c2Items) (substGlob "name".data "cs".data c2Items)
      (some "name".data) (some "cs".data) :=
  C2_roundtrip_amended c2Items "name".data "cs".data (by decide) (by decide)
    (by decide) (by decide)

end Weblate
